import Mathlib

/-!
# mimir-rules-controller: the reconciler

A shallow embedding of `pkg/controller/controller.go` (`syncHandler`,
`processNextItem`), of `pkg/apis/rulescontroller/v1alpha1/types.go`
(`GetMimirRuleNamespace`) and of the lister's `Get`, followed by theorems about
them.

Conventions of the embedding.

* A Go `error` is an `Option Error`; `none` is `nil`.
* A Go call either returns or panics: `Completion`.
* The collaborators outside the repository (the Kubernetes API server, the Mimir
  service, the PromQL parser, the duration parser, the structural validator and
  the clock) are fields of `Controller`.  The answer of the API server and of the
  Mimir service to a call may depend on every call issued before it.
* Every call issued to the API server or to the Mimir service is appended to
  `World.calls`, oldest first.
* Logging (`klog`, `runtime.HandleError`) has no effect on the state and is left out.
-/

namespace MimirRules

/-! ## Go values -/

/-- Go error value: its message and whether `kuberr.IsNotFound` holds for it. -/
structure Error where
  message : String
  notFound : Bool
deriving DecidableEq

/-- How a Go call ends: it returns a value, or it panics. -/
inductive Completion (α : Type) where
  | returned (v : α)
  | panicked
deriving DecidableEq

/-- Result of a function with signature `(T, error)` that may also panic. -/
inductive GoResult (α : Type) where
  | ok (v : α)
  | error (e : Error)
  | panic
deriving DecidableEq

/-- Error built by `fmt.Errorf(text + "%s", err)`: no wrapping. -/
def Errorf_s (text : String) (err : Error) : Error :=
  { message := text ++ err.message, notFound := false }

/-- Error built by `fmt.Errorf(text + "%w", err)`: the cause stays reachable. -/
def Errorf_w (text : String) (err : Error) : Error :=
  { message := text ++ err.message, notFound := err.notFound }

/-- Error built by `errors.Join(errs...)`: the messages separated by newlines. -/
def errorsJoin (errs : List Error) : Error :=
  { message := "\n".intercalate (errs.map Error.message)
    notFound := errs.any Error.notFound }

/-- Go `int64` subtraction: the difference wrapped into the signed 64-bit range. -/
def subInt64 (a b : Int) : Int :=
  (a - b + 2 ^ 63) % 2 ^ 64 - 2 ^ 63

/-! ## Data model (`types.go`, `metav1`) -/

/-- Instant of `metav1.Time`; `0` is Go's zero time. -/
abbrev Time := Nat

/-- The `metav1.Condition` record. -/
structure Condition where
  Type_ : String
  Status : String
  ObservedGeneration : Int
  LastTransitionTime : Time
  Reason : String
  Message : String
deriving DecidableEq

def ConditionTypeReady : String := "Ready"

def ConditionTypeFailed : String := "Failed"

def ConditionTrue : String := "True"

def ConditionFalse : String := "False"

def RuleFinalizer : String := "mimirrule.finalizers.k8s.healthjoy.com"

/-- The `intstr.IntOrString` record: `isString` is `Type == intstr.String`. -/
structure IntOrString where
  isString : Bool
  IntVal : Int
  StrVal : String
deriving DecidableEq

/-- Method `IntOrString.String()`. -/
def IntOrString.String (v : IntOrString) : String :=
  if v.isString then v.StrVal else toString v.IntVal

structure Rule where
  Record : String
  Alert : String
  Expr : IntOrString
  For : String
  Labels : List (String × String)
  Annotations : List (String × String)
deriving DecidableEq

structure RuleGroup where
  Name : String
  Interval : String
  EvaluationDelay : String
  Limit : Int
  Rules : List Rule
  SourceTenants : List String
deriving DecidableEq

structure RuleSpec where
  Groups : List RuleGroup
deriving DecidableEq

structure RuleStatus where
  Conditions : List Condition
deriving DecidableEq

/-- The `MimirRule` resource with the `ObjectMeta` fields the controller reads or writes. -/
structure MimirRule where
  Namespace : String
  Name : String
  Generation : Int
  DeletionTimestamp : Option Time
  Finalizers : List String
  Spec : RuleSpec
  Status : RuleStatus
deriving DecidableEq

/-! ## Translated rules (`rules.RuleNamespace`, `rwrulefmt.RuleGroup`, `rulefmt.RuleNode`) -/

/-- Scalar `yaml.Node`: only `Value` varies (`Kind` is always `yaml.ScalarNode`). -/
structure YamlScalar where
  Value : String
deriving DecidableEq

structure RuleNode where
  Record : YamlScalar
  Alert : YamlScalar
  Expr : YamlScalar
  For : Int
  Labels : List (String × String)
  Annotations : List (String × String)
deriving DecidableEq

/-- Translated group; `EvaluationDelay` is a pointer (`none` is the nil pointer). -/
structure RwRuleGroup where
  Name : String
  Interval : Int
  EvaluationDelay : Option Int
  Limit : Int
  Rules : List RuleNode
  SourceTenants : List String
deriving DecidableEq

structure RuleNamespace where
  Namespace : String
  Groups : List RwRuleGroup
deriving DecidableEq

/-! ## External calls and the world -/

/-- Call issued to the Mimir service or to the Kubernetes API server. -/
inductive Call where
  | createRuleGroup (namespaceKey : String) (group : RwRuleGroup)
  | deleteRuleGroup (namespaceKey : String) (groupName : String)
  | update (resourceNamespace : String) (rule : MimirRule)
deriving DecidableEq

/-- Object handed out by `workqueue.Get`: a string key, or anything else. -/
inductive Item where
  | key (s : String)
  | other (tag : Nat)
deriving DecidableEq

/-- Operation on the work queue issued by a worker. -/
inductive QueueOp where
  | done (obj : Item)
  | forget (obj : Item)
  | addRateLimited (obj : Item)
deriving DecidableEq

/-- The controller's configuration and its collaborators outside the repository. -/
structure Controller where
  /-- Field `config.ClusterName`. -/
  ClusterName : String
  /-- Answer of the Mimir service or of the API server to a call, given the calls before it. -/
  api : List Call → Call → Option Error
  /-- Function `model.ParseDuration`. -/
  parseDuration : String → Except Error Int
  /-- Method `RuleNamespace.Validate`. -/
  validate : RuleNamespace → List Error
  /-- Parser and printer `LintExpressions` runs on every expression. -/
  lintExpr : String → Except Error String
  /-- Reading of `metav1.Now()`. -/
  now : Time

/-- Mutable state around one worker. -/
structure World where
  /-- The informer store behind the lister, `indexer.GetByKey`. -/
  indexer : String → Except Error (Option MimirRule)
  /-- Calls issued so far, oldest first. -/
  calls : List Call
  syncCounter : Nat
  syncErrorCounter : Nat
  /-- Number of observations made on `syncHistogram`. -/
  syncHistogram : Nat
  /-- Operations issued on the work queue so far, oldest first. -/
  queue : List QueueOp

/-! ## Library helpers the controller calls -/

/-- Function `strings.Split(key, "/")` on the characters of the key. -/
def splitSlash : List Char → List (List Char)
  | [] => [[]]
  | ch :: rest =>
    match splitSlash rest with
    | [] => [[ch]]
    | part :: parts => if ch = '/' then [] :: part :: parts else (ch :: part) :: parts

/-- Function `cache.SplitMetaNamespaceKey`: one part is a bare name, two parts are
namespace and name, anything else is an error. -/
def SplitMetaNamespaceKey (key : String) : Except Error (String × String) :=
  match splitSlash key.data with
  | [name] => .ok ("", String.mk name)
  | [ns, name] => .ok (String.mk ns, String.mk name)
  | _ => .error { message := "unexpected key format: " ++ key, notFound := false }

/-- Function `apimeta.FindStatusCondition`: the first condition of the given type. -/
def FindStatusCondition (conditions : List Condition) (conditionType : String) :
    Option Condition :=
  conditions.find? (fun cond => cond.Type_ == conditionType)

/-- Fields `apimeta.SetStatusCondition` writes into an existing condition: the
transition time is stamped only when the status changes. -/
def mergeCondition (now : Time) (existing newCondition : Condition) : Condition :=
  { Type_ := existing.Type_
    Status := newCondition.Status
    LastTransitionTime :=
      if existing.Status ≠ newCondition.Status then
        (if newCondition.LastTransitionTime ≠ 0 then newCondition.LastTransitionTime else now)
      else existing.LastTransitionTime
    Reason := newCondition.Reason
    Message := newCondition.Message
    ObservedGeneration := newCondition.ObservedGeneration }

/-- Function `apimeta.SetStatusCondition`: the first condition of the same type is
overwritten in place; when there is none the new condition is appended. -/
def SetStatusCondition (now : Time) : List Condition → Condition → List Condition
  | [], newCondition =>
    [{ newCondition with
        LastTransitionTime :=
          if newCondition.LastTransitionTime = 0 then now
          else newCondition.LastTransitionTime }]
  | cond :: rest, newCondition =>
    if cond.Type_ = newCondition.Type_ then mergeCondition now cond newCondition :: rest
    else cond :: SetStatusCondition now rest newCondition

/-- Function `controllerutil.ContainsFinalizer`. -/
def ContainsFinalizer (rule : MimirRule) (finalizer : String) : Bool :=
  rule.Finalizers.contains finalizer

/-- Function `controllerutil.AddFinalizer`: appended unless already there. -/
def AddFinalizer (rule : MimirRule) (finalizer : String) : MimirRule :=
  if rule.Finalizers.contains finalizer then rule
  else { rule with Finalizers := rule.Finalizers ++ [finalizer] }

/-- Function `controllerutil.RemoveFinalizer`: every occurrence is dropped. -/
def RemoveFinalizer (rule : MimirRule) (finalizer : String) : MimirRule :=
  { rule with Finalizers := rule.Finalizers.filter (fun f => f != finalizer) }

/-- Method `metav1.Time.IsZero` on the pointer `DeletionTimestamp`. -/
def IsZero (t : Option Time) : Bool :=
  match t with
  | none => true
  | some v => v == 0

/-- Rules of one group after `LintExpressions`: every expression is replaced by the
printed form of its parse; the first parse error stops the pass. -/
def lintRules (lint : String → Except Error String) :
    List RuleNode → List RuleNode × Option Error
  | [] => ([], none)
  | rule :: rest =>
    match lint rule.Expr.Value with
    | .error e => (rule :: rest, some e)
    | .ok printed =>
      let r := lintRules lint rest
      ({ rule with Expr := { Value := printed } } :: r.1, r.2)

/-- Groups after `LintExpressions`, in order; the first parse error stops the pass. -/
def lintGroups (lint : String → Except Error String) :
    List RwRuleGroup → List RwRuleGroup × Option Error
  | [] => ([], none)
  | group :: rest =>
    match lintRules lint group.Rules with
    | (rules, some e) => ({ group with Rules := rules } :: rest, some e)
    | (rules, none) =>
      let r := lintGroups lint rest
      ({ group with Rules := rules } :: r.1, r.2)

/-- Method `RuleNamespace.LintExpressions`: the namespace as it is left behind,
and the error returned. -/
def LintExpressions (lint : String → Except Error String) (ruleNs : RuleNamespace) :
    RuleNamespace × Option Error :=
  let r := lintGroups lint ruleNs.Groups
  ({ ruleNs with Groups := r.1 }, r.2)

/-! ## `types.go`: `GetMimirRuleNamespace` -/

/-- Body of the inner loop of `GetMimirRuleNamespace` for one rule. -/
def translateRule (parseDuration : String → Except Error Int) (rule : Rule) :
    Except Error RuleNode :=
  let node : RuleNode :=
    { Record := { Value := rule.Record }
      Alert := { Value := rule.Alert }
      Expr := { Value := rule.Expr.String }
      For := 0
      Labels := rule.Labels
      Annotations := rule.Annotations }
  if rule.For ≠ "" then
    match parseDuration rule.For with
    | .error e => .error e
    | .ok d => .ok { node with For := d }
  else .ok node

/-- Inner loop of `GetMimirRuleNamespace`: the rules in order, first error wins. -/
def translateRules (parseDuration : String → Except Error Int) :
    List Rule → Except Error (List RuleNode)
  | [] => .ok []
  | rule :: rest =>
    match translateRule parseDuration rule with
    | .error e => .error e
    | .ok node =>
      match translateRules parseDuration rest with
      | .error e => .error e
      | .ok nodes => .ok (node :: nodes)

/-- Body of the outer loop of `GetMimirRuleNamespace` for one group.  The freshly
made group has a nil `EvaluationDelay` pointer, and the assignment
`*groupPtr.EvaluationDelay, err = ...` writes through it. -/
def translateGroup (parseDuration : String → Except Error Int) (group : RuleGroup) :
    GoResult RwRuleGroup :=
  match (if group.Interval ≠ "" then parseDuration group.Interval else .ok 0) with
  | .error e => .error e
  | .ok interval =>
    if group.EvaluationDelay ≠ "" then .panic
    else
      match translateRules parseDuration group.Rules with
      | .error e => .error e
      | .ok rules =>
        .ok { Name := group.Name
              Interval := interval
              EvaluationDelay := none
              Limit := group.Limit
              Rules := rules
              SourceTenants := group.SourceTenants }

/-- Outer loop of `GetMimirRuleNamespace`: the groups in order. -/
def translateGroups (parseDuration : String → Except Error Int) :
    List RuleGroup → GoResult (List RwRuleGroup)
  | [] => .ok []
  | group :: rest =>
    match translateGroup parseDuration group with
    | .error e => .error e
    | .panic => .panic
    | .ok g =>
      match translateGroups parseDuration rest with
      | .error e => .error e
      | .panic => .panic
      | .ok gs => .ok (g :: gs)

/-- Method `RuleSpec.GetMimirRuleNamespace`. -/
def GetMimirRuleNamespace (parseDuration : String → Except Error Int) (mr : RuleSpec)
    (ns : String) : GoResult RuleNamespace :=
  match translateGroups parseDuration mr.Groups with
  | .error e => .error e
  | .panic => .panic
  | .ok groups => .ok { Namespace := ns, Groups := groups }

/-! ## The lister -/

/-- Error `errors.NewNotFound(v1alpha1.Resource("mimirrule"), name)`; the controller
never reads its message. -/
def NewNotFound (name : String) : Error :=
  { message := "mimirrule \"" ++ name ++ "\" not found", notFound := true }

/-- Method `mimirRuleNamespaceLister.Get`. -/
def mimirRuleNamespaceLister.Get (indexer : String → Except Error (Option MimirRule))
    (ns name : String) : Except Error MimirRule :=
  match indexer (ns ++ "/" ++ name) with
  | .error e => .error e
  | .ok none => .error (NewNotFound name)
  | .ok (some obj) => .ok obj

/-! ## `controller.go`: `syncHandler` -/

/-- Namespace key `fmt.Sprintf("%s:%s:%s", cluster, namespace, name)`. -/
def namespaceKey (cluster ns name : String) : String :=
  cluster ++ ":" ++ ns ++ ":" ++ name

/-- The generation check: a `Ready` condition is found and
`rule.Generation-condition.ObservedGeneration <= 1`. -/
def upToDate (rule : MimirRule) : Bool :=
  match FindStatusCondition rule.Status.Conditions ConditionTypeReady with
  | some condition => decide (subInt64 rule.Generation condition.ObservedGeneration ≤ 1)
  | none => false

/-- State of one `syncHandler` activation when a return statement, or a panic, is
reached. -/
structure Frame where
  /-- Operand of the return statement; the result is unnamed, so deferred functions
  cannot change it. -/
  ret : Completion (Option Error)
  /-- The function-scope variable `err`, which the deferred functions read and write. -/
  err : Option Error
  /-- The object behind the pointer `rule`. -/
  rule : MimirRule
  /-- Calls issued so far. -/
  calls : List Call

/-- The loop `for _, group := range rule.Spec.Groups` of the deletion branch: the
first failing `DeleteRuleGroup` ends it. -/
def deleteGroups (c : Controller) (nsKey : String) :
    List RuleGroup → List Call → Option Error × List Call
  | [], calls => (none, calls)
  | group :: rest, calls =>
    match c.api calls (.deleteRuleGroup nsKey group.Name) with
    | some err => (some err, calls ++ [.deleteRuleGroup nsKey group.Name])
    | none => deleteGroups c nsKey rest (calls ++ [.deleteRuleGroup nsKey group.Name])

/-- The loop `for _, group := range mimirRuleNs.Groups`: the first failing
`CreateRuleGroup` ends it. -/
def createGroups (c : Controller) (nsKey : String) :
    List RwRuleGroup → List Call → Option Error × List Call
  | [], calls => (none, calls)
  | group :: rest, calls =>
    match c.api calls (.createRuleGroup nsKey group) with
    | some err => (some err, calls ++ [.createRuleGroup nsKey group])
    | none => createGroups c nsKey rest (calls ++ [.createRuleGroup nsKey group])

/-- The branch `!rule.ObjectMeta.DeletionTimestamp.IsZero()`.  Every `err` in it is
declared by an `if err := ...` statement, so the function-scope `err` stays nil. -/
def deletionSteps (c : Controller) (ns name : String) (rule : MimirRule)
    (calls : List Call) : Frame :=
  if ContainsFinalizer rule RuleFinalizer then
    match deleteGroups c (namespaceKey c.ClusterName ns name) rule.Spec.Groups calls with
    | (some err, calls1) => { ret := .returned (some err), err := none, rule := rule, calls := calls1 }
    | (none, calls1) =>
      let rule1 := RemoveFinalizer rule RuleFinalizer
      match c.api calls1 (.update rule1.Namespace rule1) with
      | some err =>
        { ret := .returned (some err), err := none, rule := rule1
          calls := calls1 ++ [.update rule1.Namespace rule1] }
      | none =>
        { ret := .returned none, err := none, rule := rule1
          calls := calls1 ++ [.update rule1.Namespace rule1] }
  else { ret := .returned none, err := none, rule := rule, calls := calls }

/-- The `Failed` condition built on every failure path. -/
def failedCondition (c : Controller) (rule : MimirRule) (err : Error) : Condition :=
  { Type_ := ConditionTypeFailed
    Status := ConditionFalse
    LastTransitionTime := c.now
    Reason := "Error"
    Message := err.message
    ObservedGeneration := rule.Generation }

/-- The `Ready` condition built once every group is applied. -/
def readyCondition (c : Controller) (rule : MimirRule) : Condition :=
  { Type_ := ConditionTypeReady
    Status := ConditionTrue
    LastTransitionTime := c.now
    Reason := "Success"
    Message := "Rule is ready"
    ObservedGeneration := rule.Generation }

/-- Statement `apimeta.SetStatusCondition(&rule.Status.Conditions, condition)`. -/
def setCondition (c : Controller) (rule : MimirRule) (condition : Condition) : MimirRule :=
  { rule with Status := { Conditions := SetStatusCondition c.now rule.Status.Conditions condition } }

/-- Lines 289-371: finalizer gate, translation, validation, lint, create loop and
`Ready`.  The field `err` tracks the function-scope variable: it is assigned by
`mimirRuleNs, err := ...` and by `_, _, err = ...LintExpressions`, while the
errors built with `err := fmt.Errorf(...)` live in inner scopes. -/
def applySteps (c : Controller) (key : String) (rule : MimirRule) (calls : List Call) : Frame :=
  if !ContainsFinalizer rule RuleFinalizer then
    { ret := .returned none, err := none, rule := AddFinalizer rule RuleFinalizer, calls := calls }
  else
    match GetMimirRuleNamespace c.parseDuration rule.Spec
        (namespaceKey c.ClusterName rule.Namespace rule.Name) with
    | .panic => { ret := .panicked, err := none, rule := rule, calls := calls }
    | .error e =>
      let err := Errorf_w "error getting mimir rule namespace: " e
      { ret := .returned (some err), err := some e
        rule := setCondition c rule (failedCondition c rule err), calls := calls }
    | .ok mimirRuleNs =>
      if (c.validate mimirRuleNs).length > 0 then
        let err := Errorf_w "validation err: " (errorsJoin (c.validate mimirRuleNs))
        { ret := .returned (some err), err := none
          rule := setCondition c rule (failedCondition c rule err), calls := calls }
      else
        match LintExpressions c.lintExpr mimirRuleNs with
        | (_, some e) =>
          let err := Errorf_s ("rule \x27" ++ key ++ "\x27 in work queue has invalid expressions: ") e
          { ret := .returned (some err), err := some e
            rule := setCondition c rule (failedCondition c rule err), calls := calls }
        | (linted, none) =>
          match createGroups c linted.Namespace linted.Groups calls with
          | (some e, calls1) =>
            let err := Errorf_w "error creating rule group: " e
            { ret := .returned (some err), err := none
              rule := setCondition c rule (failedCondition c rule err), calls := calls1 }
          | (none, calls1) =>
            { ret := .returned none, err := none
              rule := setCondition c rule (readyCondition c rule), calls := calls1 }

/-- The deferred function of lines 276-287, run when `applySteps` returns or
panics: it sends the object through `Update` and, on failure, writes the
function-scope `err`; the value already given to the return statement is out of
its reach. -/
def statusUpdateDefer (c : Controller) (f : Frame) : Frame :=
  match c.api f.calls (.update f.rule.Namespace f.rule) with
  | some updateErr =>
    let dErr := Errorf_s "error updating rule status: " updateErr
    { f with
      err := some (match f.err with
        | some err =>
          { message := "exit with " ++ err.message ++ "; update error " ++ dErr.message
            notFound := false }
        | none => dErr)
      calls := f.calls ++ [.update f.rule.Namespace f.rule] }
  | none => { f with calls := f.calls ++ [.update f.rule.Namespace f.rule] }

/-- The deferred function of lines 249-255, run last: it reads the function-scope
`err`. -/
def metricsDefer (err : Option Error) (w : World) : World :=
  { w with
    syncCounter := w.syncCounter + 1
    syncHistogram := w.syncHistogram + 1
    syncErrorCounter := if err.isSome then w.syncErrorCounter + 1 else w.syncErrorCounter }

/-- The store after the object behind a pointer it handed out was written:
`rule` points into the store, so `AddFinalizer`, `RemoveFinalizer` and
`SetStatusCondition` write the stored object. -/
def storeThrough (indexer : String → Except Error (Option MimirRule)) (storeKey : String)
    (rule : MimirRule) : String → Except Error (Option MimirRule) :=
  fun k => if k = storeKey then .ok (some rule) else indexer k

/-- Method `Controller.syncHandler`. -/
def syncHandler (c : Controller) (w : World) (key : String) :
    Completion (Option Error) × World :=
  match SplitMetaNamespaceKey key with
  | .error _ => (.returned none, w)
  | .ok (ns, name) =>
    match mimirRuleNamespaceLister.Get w.indexer ns name with
    | .error err => if err.notFound then (.returned none, w) else (.returned (some err), w)
    | .ok rule =>
      if upToDate rule then (.returned none, w)
      else
        let f :=
          if !IsZero rule.DeletionTimestamp then deletionSteps c ns name rule w.calls
          else statusUpdateDefer c (applySteps c key rule w.calls)
        (f.ret,
          metricsDefer f.err
            { w with calls := f.calls, indexer := storeThrough w.indexer (ns ++ "/" ++ name) f.rule })

/-! ## `controller.go`: `processNextItem` -/

/-- Method `Controller.processNextItem`, given what `workqueue.Get` handed out.
`Done` is deferred, so it is the last queue operation on every path. -/
def processNextItem (c : Controller) (w : World) (obj : Item) (shutdown : Bool) :
    Completion Bool × World :=
  if shutdown then (.returned false, w)
  else
    match obj with
    | .other tag =>
      (.returned true, { w with queue := w.queue ++ [.forget (.other tag), .done (.other tag)] })
    | .key key =>
      match syncHandler c w key with
      | (.panicked, w1) => (.panicked, { w1 with queue := w1.queue ++ [.done (.key key)] })
      | (.returned (some _), w1) =>
        (.returned true, { w1 with queue := w1.queue ++ [.done (.key key)] })
      | (.returned none, w1) =>
        (.returned true, { w1 with queue := w1.queue ++ [.forget (.key key), .done (.key key)] })

/-! ## The end-to-end scenario -/

/-- Structural validator of the scenario: a group name is empty, or a rule has no
expression. -/
def scenarioValidate (ruleNs : RuleNamespace) : List Error :=
  (ruleNs.Groups.filter (fun g => g.Name == "")).map
      (fun _ => { message := "Groupname should not be empty", notFound := false }) ++
  ((ruleNs.Groups.flatMap (fun g => g.Rules)).filter (fun r => r.Expr.Value == "")).map
      (fun _ => { message := "field expr must be set in rule", notFound := false })

/-- Controller of the scenario: cluster name `cluster`, every remote call and every
`Update` succeeds, expressions are printed as they are written.  The scenario holds
no duration string, so its duration parser is never consulted; it rejects every
input. -/
def scenarioController : Controller :=
  { ClusterName := "cluster"
    api := fun _ _ => none
    parseDuration := fun s => .error { message := "not a valid duration string: " ++ s, notFound := false }
    validate := scenarioValidate
    lintExpr := fun s => .ok s
    now := 1000 }

/-- Spec with the single group `g1` holding one alerting rule with the given expression. -/
def scenarioSpec (expr : String) : RuleSpec :=
  { Groups :=
      [{ Name := "g1", Interval := "", EvaluationDelay := "", Limit := 0
         Rules := [{ Record := "", Alert := "a1", Expr := { isString := true, IntVal := 0, StrVal := expr }
                     For := "", Labels := [], Annotations := [] }]
         SourceTenants := [] }] }

/-- Resource `ns/r1` at generation 1: no finalizer, no condition, expression `up == 0`. -/
def scenarioRule : MimirRule :=
  { Namespace := "ns", Name := "r1", Generation := 1, DeletionTimestamp := none
    Finalizers := [], Spec := scenarioSpec "up == 0", Status := { Conditions := [] } }

/-- World whose store holds exactly the given rule under `ns/r1`. -/
def scenarioWorld (rule : MimirRule) : World :=
  { indexer := fun k => if k = "ns/r1" then .ok (some rule) else .ok none
    calls := [], syncCounter := 0, syncErrorCounter := 0, syncHistogram := 0, queue := [] }

/-- The translated group `g1` with the expression `up == 0`. -/
def scenarioGroup : RwRuleGroup :=
  { Name := "g1", Interval := 0, EvaluationDelay := none, Limit := 0
    Rules := [{ Record := { Value := "" }, Alert := { Value := "a1" }, Expr := { Value := "up == 0" }
                For := 0, Labels := [], Annotations := [] }]
    SourceTenants := [] }

/-! ## Specification vocabulary -/

/-- A list of calls issued one after the other until one fails: the error of the
failing call, if any, and the log afterwards. -/
def issueAll (c : Controller) : List Call → List Call → Option Error × List Call
  | [], calls => (none, calls)
  | call :: rest, calls =>
    match c.api calls call with
    | some err => (some err, calls ++ [call])
    | none => issueAll c rest (calls ++ [call])

/-- Every call of `issued`, made in order after `calls`, succeeds. -/
def AllSucceed (c : Controller) (calls issued : List Call) : Prop :=
  ∀ i call, issued[i]? = some call → c.api (calls ++ issued.take i) call = none

/-- The call at position `i` of `issued` is the first one to fail, with error `e`. -/
def FirstFailure (c : Controller) (calls issued : List Call) (i : Nat) (e : Error) : Prop :=
  (∀ j call, j < i → issued[j]? = some call → c.api (calls ++ issued.take j) call = none) ∧
  ∃ call, issued[i]? = some call ∧ c.api (calls ++ issued.take i) call = some e

/-- The `DeleteRuleGroup` calls of the deletion branch, one per spec group, in spec order. -/
def deleteCalls (nsKey : String) (groups : List RuleGroup) : List Call :=
  groups.map (fun g => Call.deleteRuleGroup nsKey g.Name)

/-- The `CreateRuleGroup` calls of the create loop, one per group, in order. -/
def createCalls (nsKey : String) (groups : List RwRuleGroup) : List Call :=
  groups.map (fun g => Call.createRuleGroup nsKey g)

/-- A call to the Mimir service, as opposed to an `Update`. -/
def Call.isRemote : Call → Bool
  | .createRuleGroup _ _ => true
  | .deleteRuleGroup _ _ => true
  | .update _ _ => false

/-- A call is a `CreateRuleGroup`. -/
def Call.isCreate : Call → Bool
  | .createRuleGroup _ _ => true
  | _ => false

/-- A call is a `DeleteRuleGroup`. -/
def Call.isDelete : Call → Bool
  | .deleteRuleGroup _ _ => true
  | _ => false

/-- The scenario's controller with another behaviour of the API server and of the
Mimir service: the calls selected by `fails` are answered with an error. -/
def scenarioControllerFailing (fails : Call → Bool) : Controller :=
  { scenarioController with
    api := fun _ call => if fails call then some { message := "boom", notFound := false } else none }

/-- The scenario's resource after sync 1: the finalizer is there. -/
def scenarioAfterSync1 : MimirRule :=
  AddFinalizer scenarioRule RuleFinalizer

/-- The scenario's resource after sync 2 by controller `c`: `Ready` is set. -/
def scenarioAfterSync2 (c : Controller) : MimirRule :=
  setCondition c scenarioAfterSync1 (readyCondition c scenarioAfterSync1)

/-- The scenario's resource after the edit: the given generation, an empty expression. -/
def scenarioEdited (c : Controller) (generation : Int) : MimirRule :=
  { scenarioAfterSync2 c with Generation := generation, Spec := scenarioSpec "" }

/-- The translated group `g1` with an empty expression. -/
def scenarioEmptyGroup : RwRuleGroup :=
  { scenarioGroup with
    Rules := [{ Record := { Value := "" }, Alert := { Value := "a1" }, Expr := { Value := "" }
                For := 0, Labels := [], Annotations := [] }] }

/-- A call is an `Update`. -/
def Call.isUpdate : Call → Bool
  | .update _ _ => true
  | _ => false

/-- Spec with the two groups `g1` and `g2`, each without rules. -/
def twoGroupsSpec : RuleSpec :=
  { Groups :=
      [{ Name := "g1", Interval := "", EvaluationDelay := "", Limit := 0, Rules := []
         SourceTenants := [] },
       { Name := "g2", Interval := "", EvaluationDelay := "", Limit := 0, Rules := []
         SourceTenants := [] }] }

/-- Resource `ns/r1` being deleted: deletion timestamp set, finalizer present, no
condition, the two groups `g1` and `g2`. -/
def deletingRule : MimirRule :=
  { Namespace := "ns", Name := "r1", Generation := 2, DeletionTimestamp := some 7
    Finalizers := [RuleFinalizer], Spec := twoGroupsSpec, Status := { Conditions := [] } }

/-- The scenario's resource after sync 2, now being deleted: deletion timestamp set,
finalizer present, `Ready` observed at the current generation. -/
def deletingReadyRule : MimirRule :=
  { scenarioAfterSync2 scenarioController with DeletionTimestamp := some 7 }

/-- A resource that lost its finalizer after a successful sync: not deleting, no
finalizer, `Ready` observed at the current generation. -/
def readyRuleWithoutFinalizer : MimirRule :=
  { scenarioAfterSync2 scenarioController with Finalizers := [] }

/-- The call `DeleteRuleGroup(_, "g2")`. -/
def isDeleteOfG2 : Call → Bool
  | .deleteRuleGroup _ groupName => groupName == "g2"
  | _ => false

/-- Resource `ns/r1` with the finalizer, not deleting, no condition, the two groups
`g1` and `g2`. -/
def twoGroupsRule : MimirRule :=
  { deletingRule with DeletionTimestamp := none }

/-- The call `CreateRuleGroup(_, g)` for a group named `g2`. -/
def isCreateOfG2 : Call → Bool
  | .createRuleGroup _ group => group.Name == "g2"
  | _ => false

/-- Translation of a spec group without rules and without durations. -/
def emptyGroupNamed (name : String) : RwRuleGroup :=
  { Name := name, Interval := 0, EvaluationDelay := none, Limit := 0, Rules := []
    SourceTenants := [] }

/-! ## The translation as the specification words it -/

/-- Duration of a duration string as the specification words it: zero for the empty
string, the parsed duration otherwise. -/
def parsedOrZero (parseDuration : String → Except Error Int) (s : String) : Int :=
  if s = "" then 0
  else
    match parseDuration s with
    | .ok d => d
    | .error _ => 0

/-- A duration string that is not empty and does not parse. -/
def FailsToParse (parseDuration : String → Except Error Int) (s : String) : Prop :=
  s ≠ "" ∧ ∃ e, parseDuration s = .error e

/-- Rule that the specification expects for a source rule: the scalar values are
`Record`, `Alert` and `Expr.String()`, labels and annotations are the source's, `For`
is the parsed duration. -/
def expectedRule (parseDuration : String → Except Error Int) (rule : Rule) : RuleNode :=
  { Record := { Value := rule.Record }
    Alert := { Value := rule.Alert }
    Expr := { Value := rule.Expr.String }
    For := parsedOrZero parseDuration rule.For
    Labels := rule.Labels
    Annotations := rule.Annotations }

/-- Group that the specification expects for a source group without evaluation
delay: name, limit and source tenants are the source's, `Interval` is the parsed
interval, the rules are the expected rules in the same order. -/
def expectedGroup (parseDuration : String → Except Error Int) (group : RuleGroup) :
    RwRuleGroup :=
  { Name := group.Name
    Interval := parsedOrZero parseDuration group.Interval
    EvaluationDelay := none
    Limit := group.Limit
    Rules := group.Rules.map (expectedRule parseDuration)
    SourceTenants := group.SourceTenants }

/-- Some duration string of the group, its interval or the `for` of one of its
rules, is not empty and does not parse. -/
def GroupFailsToParse (parseDuration : String → Except Error Int) (group : RuleGroup) : Prop :=
  FailsToParse parseDuration group.Interval ∨
    ∃ rule ∈ group.Rules, FailsToParse parseDuration rule.For

/-- Spec with the single group `g1`, without rules, with the given evaluation delay. -/
def delaySpec (delay : String) : RuleSpec :=
  { Groups :=
      [{ Name := "g1", Interval := "", EvaluationDelay := delay, Limit := 0, Rules := []
         SourceTenants := [] }] }

/-- Duration parser of the examples: `1m` is sixty seconds in nanoseconds, every
other string is rejected. -/
def exampleParseDuration (s : String) : Except Error Int :=
  if s = "1m" then .ok 60000000000
  else .error { message := "not a valid duration string: " ++ s, notFound := false }


/-- The scenario's resource after sync 1 with the interval of `g1` set to `5x`, which
the scenario's duration parser rejects. -/
def badIntervalRule : MimirRule :=
  { scenarioAfterSync1 with
    Spec := { Groups := [{ Name := "g1", Interval := "5x", EvaluationDelay := "", Limit := 0
                           Rules := [], SourceTenants := [] }] } }


/-- The scenario's resource after sync 1 whose group `g1` has the evaluation delay
`soon`, which the scenario's duration parser rejects. -/
def unparsableDelayRule : MimirRule :=
  { scenarioAfterSync1 with Spec := delaySpec "soon" }

/-- A `Ready` condition observed at generation 1. -/
def readyAtOne : Condition :=
  { Type_ := ConditionTypeReady, Status := ConditionTrue, ObservedGeneration := 1
    LastTransitionTime := 1000, Reason := "Success", Message := "Rule is ready" }

/-- A `Failed` condition observed at generation 3. -/
def failedAtThree : Condition :=
  { Type_ := ConditionTypeFailed, Status := ConditionFalse, ObservedGeneration := 3
    LastTransitionTime := 2000, Reason := "Error"
    Message := "validation err: field expr must be set in rule" }

/-- Resource `ns/r1` at generation 5 with the finalizer, an empty expression, `Ready`
observed at generation 1 and `Failed` observed at generation 3. -/
def conditionedRule : MimirRule :=
  { Namespace := "ns", Name := "r1", Generation := 5, DeletionTimestamp := none
    Finalizers := [RuleFinalizer], Spec := scenarioSpec ""
    Status := { Conditions := [readyAtOne, failedAtThree] } }


/-! ## Loops over external calls -/

theorem deleteGroups_eq_issueAll (c : Controller) (nsKey : String) (groups : List RuleGroup)
    (calls : List Call) :
    deleteGroups c nsKey groups calls = issueAll c (deleteCalls nsKey groups) calls := by
  induction groups generalizing calls with
  | nil => rfl
  | cons g rest ih =>
    simp only [deleteGroups, deleteCalls, List.map_cons, issueAll]
    cases c.api calls (Call.deleteRuleGroup nsKey g.Name) with
    | some e => rfl
    | none => exact ih _

theorem createGroups_eq_issueAll (c : Controller) (nsKey : String) (groups : List RwRuleGroup)
    (calls : List Call) :
    createGroups c nsKey groups calls = issueAll c (createCalls nsKey groups) calls := by
  induction groups generalizing calls with
  | nil => rfl
  | cons g rest ih =>
    simp only [createGroups, createCalls, List.map_cons, issueAll]
    cases c.api calls (Call.createRuleGroup nsKey g) with
    | some e => rfl
    | none => exact ih _

theorem issueAll_of_allSucceed (c : Controller) (issued calls : List Call)
    (h : AllSucceed c calls issued) : issueAll c issued calls = (none, calls ++ issued) := by
  induction issued generalizing calls with
  | nil => simp [issueAll]
  | cons call rest ih =>
    have h0 : c.api calls call = none := by
      have := h 0 call (by simp)
      simpa using this
    have hrest : AllSucceed c (calls ++ [call]) rest := by
      intro i call1 hi
      have := h (i + 1) call1 (by simpa using hi)
      simpa [List.append_assoc] using this
    simp only [issueAll, h0]
    rw [ih _ hrest]
    simp [List.append_assoc]

theorem issueAll_of_firstFailure (c : Controller) (issued calls : List Call) (i : Nat)
    (e : Error) (h : FirstFailure c calls issued i e) :
    issueAll c issued calls = (some e, calls ++ issued.take (i + 1)) := by
  induction issued generalizing calls i with
  | nil =>
    obtain ⟨_, call, hc, _⟩ := h
    simp at hc
  | cons call rest ih =>
    cases i with
    | zero =>
      obtain ⟨_, call1, hc, hf⟩ := h
      simp at hc
      subst hc
      simp at hf
      simp [issueAll, hf]
    | succ n =>
      obtain ⟨hbefore, call1, hc, hf⟩ := h
      have h0 : c.api calls call = none := by
        have := hbefore 0 call (by omega) (by simp)
        simpa using this
      have hrest : FirstFailure c (calls ++ [call]) rest n e := by
        refine ⟨?_, call1, by simpa using hc, by simpa [List.append_assoc] using hf⟩
        intro j call2 hj hj2
        have := hbefore (j + 1) call2 (by omega) (by simpa using hj2)
        simpa [List.append_assoc] using this
      simp only [issueAll, h0]
      rw [ih _ _ hrest]
      simp [List.append_assoc]

/-- Dichotomy: a loop over external calls either sees every call succeed or has a
first failing call. -/
theorem allSucceed_or_firstFailure (c : Controller) (issued calls : List Call) :
    AllSucceed c calls issued ∨ ∃ i e, FirstFailure c calls issued i e := by
  induction issued generalizing calls with
  | nil => left; intro i call hi; simp at hi
  | cons call rest ih =>
    cases h0 : c.api calls call with
    | some e =>
      right
      exact ⟨0, e, by intro j _ hj; omega, call, by simp, by simpa using h0⟩
    | none =>
      rcases ih (calls ++ [call]) with hall | ⟨i, e, hbefore, call1, hc, hf⟩
      · left
        intro i call1 hi
        cases i with
        | zero =>
          simp at hi
          subst hi
          simpa using h0
        | succ n =>
          have := hall n call1 (by simpa using hi)
          simpa [List.append_assoc] using this
      · right
        refine ⟨i + 1, e, ?_, call1, by simpa using hc, by simpa [List.append_assoc] using hf⟩
        intro j call2 hj hj2
        cases j with
        | zero =>
          simp at hj2
          subst hj2
          simpa using h0
        | succ n =>
          have := hbefore n call2 (by omega) (by simpa using hj2)
          simpa [List.append_assoc] using this

/-! ## Conditions -/

theorem find_setStatusCondition_same (now : Time) (conds : List Condition)
    (newCondition : Condition) :
    ∃ cond, FindStatusCondition (SetStatusCondition now conds newCondition) newCondition.Type_
        = some cond ∧
      cond.Type_ = newCondition.Type_ ∧ cond.Status = newCondition.Status ∧
      cond.ObservedGeneration = newCondition.ObservedGeneration ∧
      cond.Message = newCondition.Message ∧ cond.Reason = newCondition.Reason := by
  induction conds with
  | nil => simp [SetStatusCondition, FindStatusCondition]
  | cons c rest ih =>
    by_cases hc : c.Type_ = newCondition.Type_
    · simp [SetStatusCondition, FindStatusCondition, hc, mergeCondition]
    · obtain ⟨cond, hfind, hrest⟩ := ih
      refine ⟨cond, ?_, hrest⟩
      simp only [FindStatusCondition] at hfind
      simp [SetStatusCondition, FindStatusCondition, hc, hfind]

theorem filter_setStatusCondition_other (now : Time) (conds : List Condition)
    (newCondition : Condition) (t : String) (h : t ≠ newCondition.Type_) :
    (SetStatusCondition now conds newCondition).filter (fun cond => cond.Type_ == t)
      = conds.filter (fun cond => cond.Type_ == t) := by
  induction conds with
  | nil =>
    have : ¬ newCondition.Type_ = t := fun e => h e.symm
    simp [SetStatusCondition, this]
  | cons c rest ih =>
    by_cases hc : c.Type_ = newCondition.Type_
    · have hct : ¬ c.Type_ = t := fun e => h (e.symm.trans hc)
      have hnt : ¬ newCondition.Type_ = t := fun e => h e.symm
      simp [SetStatusCondition, hc, mergeCondition, List.filter_cons, hnt]
    · simp only [SetStatusCondition, hc, if_false, List.filter_cons, ih]

theorem find_setStatusCondition_other (now : Time) (conds : List Condition)
    (newCondition : Condition) (t : String) (h : t ≠ newCondition.Type_) :
    FindStatusCondition (SetStatusCondition now conds newCondition) t
      = FindStatusCondition conds t := by
  induction conds with
  | nil =>
    have : ¬ newCondition.Type_ = t := fun e => h e.symm
    simp [SetStatusCondition, FindStatusCondition, this]
  | cons c rest ih =>
    by_cases hc : c.Type_ = newCondition.Type_
    · have hct : ¬ c.Type_ = t := fun e => h (e.symm.trans hc)
      have hnt : ¬ newCondition.Type_ = t := fun e => h e.symm
      simp [SetStatusCondition, FindStatusCondition, hc, mergeCondition, List.find?_cons, hnt]
    · simp only [FindStatusCondition] at ih
      simp only [SetStatusCondition, hc, if_false, FindStatusCondition, List.find?_cons, ih]

/-! ## Translation and lint keep the groups, their order and their names -/

theorem translateGroup_name (pd : String → Except Error Int) (group : RuleGroup)
    (g : RwRuleGroup) (h : translateGroup pd group = .ok g) : g.Name = group.Name := by
  unfold translateGroup at h
  split at h
  · cases h
  · split at h
    · cases h
    · split at h
      · cases h
      · cases h; rfl

theorem translateGroups_names (pd : String → Except Error Int) (groups : List RuleGroup)
    (gs : List RwRuleGroup) (h : translateGroups pd groups = .ok gs) :
    gs.map (fun g => g.Name) = groups.map (fun g => g.Name) := by
  induction groups generalizing gs with
  | nil => simp [translateGroups] at h; subst h; rfl
  | cons group rest ih =>
    unfold translateGroups at h
    split at h
    · cases h
    · cases h
    · rename_i g hg
      split at h
      · cases h
      · cases h
      · rename_i gs1 hgs
        cases h
        simp [translateGroup_name pd group g hg, ih gs1 hgs]

theorem lintGroups_names (lint : String → Except Error String) (groups : List RwRuleGroup) :
    (lintGroups lint groups).1.map (fun g => g.Name) = groups.map (fun g => g.Name) := by
  induction groups with
  | nil => rfl
  | cons group rest ih =>
    unfold lintGroups
    split
    · simp
    · simp [ih]

theorem getMimirRuleNamespace_ok (pd : String → Except Error Int) (mr : RuleSpec) (ns : String)
    (ruleNs : RuleNamespace) (h : GetMimirRuleNamespace pd mr ns = .ok ruleNs) :
    ruleNs.Namespace = ns ∧
      ruleNs.Groups.map (fun g => g.Name) = mr.Groups.map (fun g => g.Name) := by
  unfold GetMimirRuleNamespace at h
  split at h
  · cases h
  · cases h
  · rename_i gs hgs
    cases h
    exact ⟨rfl, translateGroups_names pd _ _ hgs⟩

theorem lintExpressions_shape (lint : String → Except Error String) (ruleNs : RuleNamespace) :
    (LintExpressions lint ruleNs).1.Namespace = ruleNs.Namespace ∧
      (LintExpressions lint ruleNs).1.Groups.map (fun g => g.Name)
        = ruleNs.Groups.map (fun g => g.Name) :=
  ⟨rfl, lintGroups_names lint ruleNs.Groups⟩

/-! ## The paths of `syncHandler` -/

theorem statusUpdateDefer_ret (c : Controller) (f : Frame) :
    (statusUpdateDefer c f).ret = f.ret := by
  unfold statusUpdateDefer
  split <;> rfl

theorem statusUpdateDefer_rule (c : Controller) (f : Frame) :
    (statusUpdateDefer c f).rule = f.rule := by
  unfold statusUpdateDefer
  split <;> rfl

theorem statusUpdateDefer_calls (c : Controller) (f : Frame) :
    (statusUpdateDefer c f).calls = f.calls ++ [.update f.rule.Namespace f.rule] := by
  unfold statusUpdateDefer
  split <;> rfl

theorem syncHandler_upToDate (c : Controller) (w : World) (key ns name : String)
    (rule : MimirRule) (hkey : SplitMetaNamespaceKey key = .ok (ns, name))
    (hget : w.indexer (ns ++ "/" ++ name) = .ok (some rule)) (hgen : upToDate rule = true) :
    syncHandler c w key = (.returned none, w) := by
  simp [syncHandler, hkey, mimirRuleNamespaceLister.Get, hget, hgen]

theorem syncHandler_deleting (c : Controller) (w : World) (key ns name : String)
    (rule : MimirRule) (hkey : SplitMetaNamespaceKey key = .ok (ns, name))
    (hget : w.indexer (ns ++ "/" ++ name) = .ok (some rule)) (hgen : upToDate rule = false)
    (hdel : IsZero rule.DeletionTimestamp = false) :
    syncHandler c w key =
      ((deletionSteps c ns name rule w.calls).ret,
        metricsDefer (deletionSteps c ns name rule w.calls).err
          { w with
            calls := (deletionSteps c ns name rule w.calls).calls
            indexer := storeThrough w.indexer (ns ++ "/" ++ name)
              (deletionSteps c ns name rule w.calls).rule }) := by
  simp [syncHandler, hkey, mimirRuleNamespaceLister.Get, hget, hgen, hdel]

theorem syncHandler_applying (c : Controller) (w : World) (key ns name : String)
    (rule : MimirRule) (hkey : SplitMetaNamespaceKey key = .ok (ns, name))
    (hget : w.indexer (ns ++ "/" ++ name) = .ok (some rule)) (hgen : upToDate rule = false)
    (hdel : IsZero rule.DeletionTimestamp = true) :
    syncHandler c w key =
      ((applySteps c key rule w.calls).ret,
        metricsDefer (statusUpdateDefer c (applySteps c key rule w.calls)).err
          { w with
            calls := (applySteps c key rule w.calls).calls ++
              [.update (applySteps c key rule w.calls).rule.Namespace
                (applySteps c key rule w.calls).rule]
            indexer := storeThrough w.indexer (ns ++ "/" ++ name)
              (applySteps c key rule w.calls).rule }) := by
  simp [syncHandler, hkey, mimirRuleNamespaceLister.Get, hget, hgen, hdel,
    statusUpdateDefer_ret, statusUpdateDefer_rule, statusUpdateDefer_calls]

theorem syncHandler_queue (c : Controller) (w : World) (key : String) :
    (syncHandler c w key).2.queue = w.queue := by
  unfold syncHandler
  split
  · rfl
  · split
    · split <;> rfl
    · split <;> rfl

theorem applySteps_addFinalizer (c : Controller) (key : String) (rule : MimirRule)
    (calls : List Call) (hfin : ContainsFinalizer rule RuleFinalizer = false) :
    applySteps c key rule calls =
      { ret := .returned none, err := none, rule := AddFinalizer rule RuleFinalizer
        calls := calls } := by
  simp [applySteps, hfin]

theorem applySteps_translateError (c : Controller) (key : String) (rule : MimirRule)
    (calls : List Call) (e : Error) (hfin : ContainsFinalizer rule RuleFinalizer = true)
    (htr : GetMimirRuleNamespace c.parseDuration rule.Spec
      (namespaceKey c.ClusterName rule.Namespace rule.Name) = .error e) :
    applySteps c key rule calls =
      { ret := .returned (some (Errorf_w "error getting mimir rule namespace: " e))
        err := some e
        rule := setCondition c rule
          (failedCondition c rule (Errorf_w "error getting mimir rule namespace: " e))
        calls := calls } := by
  simp [applySteps, hfin, htr]

theorem applySteps_invalid (c : Controller) (key : String) (rule : MimirRule)
    (calls : List Call) (ruleNs : RuleNamespace)
    (hfin : ContainsFinalizer rule RuleFinalizer = true)
    (htr : GetMimirRuleNamespace c.parseDuration rule.Spec
      (namespaceKey c.ClusterName rule.Namespace rule.Name) = .ok ruleNs)
    (hval : (c.validate ruleNs).length > 0) :
    applySteps c key rule calls =
      { ret := .returned (some (Errorf_w "validation err: " (errorsJoin (c.validate ruleNs))))
        err := none
        rule := setCondition c rule
          (failedCondition c rule (Errorf_w "validation err: " (errorsJoin (c.validate ruleNs))))
        calls := calls } := by
  simp [applySteps, hfin, htr, hval]

theorem applySteps_lintError (c : Controller) (key : String) (rule : MimirRule)
    (calls : List Call) (ruleNs : RuleNamespace) (e : Error)
    (hfin : ContainsFinalizer rule RuleFinalizer = true)
    (htr : GetMimirRuleNamespace c.parseDuration rule.Spec
      (namespaceKey c.ClusterName rule.Namespace rule.Name) = .ok ruleNs)
    (hval : c.validate ruleNs = [])
    (hlint : (LintExpressions c.lintExpr ruleNs).2 = some e) :
    applySteps c key rule calls =
      { ret := .returned (some (Errorf_s
          ("rule \x27" ++ key ++ "\x27 in work queue has invalid expressions: ") e))
        err := some e
        rule := setCondition c rule (failedCondition c rule (Errorf_s
          ("rule \x27" ++ key ++ "\x27 in work queue has invalid expressions: ") e))
        calls := calls } := by
  rcases hL : LintExpressions c.lintExpr ruleNs with ⟨linted, le⟩
  rw [hL] at hlint
  simp only at hlint
  subst hlint
  simp [applySteps, hfin, htr, hval, hL]

theorem applySteps_createError (c : Controller) (key : String) (rule : MimirRule)
    (calls : List Call) (ruleNs : RuleNamespace) (i : Nat) (e : Error)
    (hfin : ContainsFinalizer rule RuleFinalizer = true)
    (htr : GetMimirRuleNamespace c.parseDuration rule.Spec
      (namespaceKey c.ClusterName rule.Namespace rule.Name) = .ok ruleNs)
    (hval : c.validate ruleNs = [])
    (hlint : (LintExpressions c.lintExpr ruleNs).2 = none)
    (hfail : FirstFailure c calls
      (createCalls ruleNs.Namespace (LintExpressions c.lintExpr ruleNs).1.Groups) i e) :
    applySteps c key rule calls =
      { ret := .returned (some (Errorf_w "error creating rule group: " e))
        err := none
        rule := setCondition c rule
          (failedCondition c rule (Errorf_w "error creating rule group: " e))
        calls := calls ++
          (createCalls ruleNs.Namespace (LintExpressions c.lintExpr ruleNs).1.Groups).take (i + 1) } := by
  have hloop := issueAll_of_firstFailure c _ calls i e hfail
  rw [← createGroups_eq_issueAll] at hloop
  rcases hL : LintExpressions c.lintExpr ruleNs with ⟨linted, le⟩
  have hns : linted.Namespace = ruleNs.Namespace := by
    have := (lintExpressions_shape c.lintExpr ruleNs).1
    rw [hL] at this
    exact this
  rw [hL] at hlint hloop
  simp only at hlint hloop
  subst hlint
  simp [applySteps, hfin, htr, hval, hL, hns, hloop]

theorem applySteps_ready (c : Controller) (key : String) (rule : MimirRule)
    (calls : List Call) (ruleNs : RuleNamespace)
    (hfin : ContainsFinalizer rule RuleFinalizer = true)
    (htr : GetMimirRuleNamespace c.parseDuration rule.Spec
      (namespaceKey c.ClusterName rule.Namespace rule.Name) = .ok ruleNs)
    (hval : c.validate ruleNs = [])
    (hlint : (LintExpressions c.lintExpr ruleNs).2 = none)
    (hall : AllSucceed c calls
      (createCalls ruleNs.Namespace (LintExpressions c.lintExpr ruleNs).1.Groups)) :
    applySteps c key rule calls =
      { ret := .returned none
        err := none
        rule := setCondition c rule (readyCondition c rule)
        calls := calls ++
          createCalls ruleNs.Namespace (LintExpressions c.lintExpr ruleNs).1.Groups } := by
  have hloop := issueAll_of_allSucceed c _ calls hall
  rw [← createGroups_eq_issueAll] at hloop
  rcases hL : LintExpressions c.lintExpr ruleNs with ⟨linted, le⟩
  have hns : linted.Namespace = ruleNs.Namespace := by
    have := (lintExpressions_shape c.lintExpr ruleNs).1
    rw [hL] at this
    exact this
  rw [hL] at hlint hloop
  simp only at hlint hloop
  subst hlint
  simp [applySteps, hfin, htr, hval, hL, hns, hloop]

theorem deletionSteps_failure (c : Controller) (ns name : String) (rule : MimirRule)
    (calls : List Call) (i : Nat) (e : Error)
    (hfin : ContainsFinalizer rule RuleFinalizer = true)
    (hfail : FirstFailure c calls
      (deleteCalls (namespaceKey c.ClusterName ns name) rule.Spec.Groups) i e) :
    deletionSteps c ns name rule calls =
      { ret := .returned (some e), err := none, rule := rule
        calls := calls ++
          (deleteCalls (namespaceKey c.ClusterName ns name) rule.Spec.Groups).take (i + 1) } := by
  have hloop := issueAll_of_firstFailure c _ calls i e hfail
  rw [← deleteGroups_eq_issueAll] at hloop
  simp [deletionSteps, hfin, hloop]

theorem deletionSteps_success (c : Controller) (ns name : String) (rule : MimirRule)
    (calls : List Call) (hfin : ContainsFinalizer rule RuleFinalizer = true)
    (hall : AllSucceed c calls
      (deleteCalls (namespaceKey c.ClusterName ns name) rule.Spec.Groups)) :
    deletionSteps c ns name rule calls =
      { ret := .returned
          (c.api (calls ++ deleteCalls (namespaceKey c.ClusterName ns name) rule.Spec.Groups)
            (.update rule.Namespace (RemoveFinalizer rule RuleFinalizer)))
        err := none
        rule := RemoveFinalizer rule RuleFinalizer
        calls := calls ++ deleteCalls (namespaceKey c.ClusterName ns name) rule.Spec.Groups ++
          [.update rule.Namespace (RemoveFinalizer rule RuleFinalizer)] } := by
  have hloop := issueAll_of_allSucceed c _ calls hall
  rw [← deleteGroups_eq_issueAll] at hloop
  have hns : (RemoveFinalizer rule RuleFinalizer).Namespace = rule.Namespace := rfl
  simp only [deletionSteps, hfin, hloop, if_true, hns]
  split <;> simp_all

/-! ## C1: the deferred persist error -/

/-- C1, what the code does: on the add-finalizer and apply paths the value
`syncHandler` returns is the operand of the return statement that was reached.
When the deferred `Update` fails, the call is issued, its error is counted by the
sync-error counter, and the returned value is still that operand: `nil` whenever
the step itself succeeded. -/
theorem C1_persist_error_is_not_returned (c : Controller) (w : World) (key ns name : String)
    (rule : MimirRule) (e : Error)
    (hkey : SplitMetaNamespaceKey key = .ok (ns, name))
    (hget : w.indexer (ns ++ "/" ++ name) = .ok (some rule))
    (hgen : upToDate rule = false)
    (hdel : IsZero rule.DeletionTimestamp = true)
    (hupdate : c.api (applySteps c key rule w.calls).calls
      (.update (applySteps c key rule w.calls).rule.Namespace
        (applySteps c key rule w.calls).rule) = some e) :
    (syncHandler c w key).1 = (applySteps c key rule w.calls).ret ∧
    (syncHandler c w key).2.calls = (applySteps c key rule w.calls).calls ++
      [.update (applySteps c key rule w.calls).rule.Namespace
        (applySteps c key rule w.calls).rule] ∧
    (syncHandler c w key).2.syncErrorCounter = w.syncErrorCounter + 1 := by
  rw [syncHandler_applying c w key ns name rule hkey hget hgen hdel]
  refine ⟨rfl, rfl, ?_⟩
  simp [metricsDefer, statusUpdateDefer, hupdate]

/-- C1 at a concrete input: resource `ns/r1` without finalizer, every `Update`
answered with the error `boom`.  The finalizer is added, the `Update` is issued
and fails, and `syncHandler` returns `nil`. -/
theorem C1_persist_error_is_not_returned_witness :
    (syncHandler (scenarioControllerFailing Call.isUpdate) (scenarioWorld scenarioRule) "ns/r1").1
      = .returned none ∧
    (syncHandler (scenarioControllerFailing Call.isUpdate) (scenarioWorld scenarioRule)
      "ns/r1").2.calls = [.update "ns" scenarioAfterSync1] ∧
    (syncHandler (scenarioControllerFailing Call.isUpdate) (scenarioWorld scenarioRule)
      "ns/r1").2.syncErrorCounter = 1 :=
  C1_persist_error_is_not_returned (scenarioControllerFailing Call.isUpdate)
    (scenarioWorld scenarioRule) "ns/r1" "ns" "r1" scenarioRule
    { message := "boom", notFound := false } rfl rfl rfl rfl rfl

/-! ## C2: the worker and the queue -/

/-- C2 fails as stated: resource `ns/r1` with the finalizer, `CreateRuleGroup`
answered with the error `boom`.  `syncHandler` returns an error, and the only
queue operation of the worker is `Done`: the key is not re-added with
`AddRateLimited`. -/
theorem C2_error_is_not_requeued :
    (syncHandler (scenarioControllerFailing Call.isCreate) (scenarioWorld scenarioAfterSync1)
      "ns/r1").1
      = .returned (some { message := "error creating rule group: boom", notFound := false }) ∧
    (processNextItem (scenarioControllerFailing Call.isCreate) (scenarioWorld scenarioAfterSync1)
      (.key "ns/r1") false).2.queue = [.done (.key "ns/r1")] ∧
    QueueOp.addRateLimited (.key "ns/r1") ∉
      (processNextItem (scenarioControllerFailing Call.isCreate) (scenarioWorld scenarioAfterSync1)
        (.key "ns/r1") false).2.queue := by
  refine ⟨by rfl, by rfl, ?_⟩
  have h : (processNextItem (scenarioControllerFailing Call.isCreate)
      (scenarioWorld scenarioAfterSync1) (.key "ns/r1") false).2.queue
      = [.done (.key "ns/r1")] := by rfl
  rw [h]
  decide

/-- C2 as amended: for every key a worker takes from the queue, the queue
operations it issues are `Forget` then `Done` when `syncHandler` returns success,
and `Done` alone otherwise; so `Done` is issued exactly once, `Forget` exactly when
the sync succeeded, and `AddRateLimited` never. -/
theorem C2_processNextItem_queue_operations (c : Controller) (w : World) (key : String) :
    ∃ ops : List QueueOp,
      (processNextItem c w (.key key) false).2.queue = w.queue ++ ops ∧
      ops = (if (syncHandler c w key).1 = .returned none
        then [.forget (.key key), .done (.key key)] else [.done (.key key)]) ∧
      ops.count (.done (.key key)) = 1 ∧
      (∀ obj, ops.count (.addRateLimited obj) = 0) ∧
      ops.count (.forget (.key key)) =
        (if (syncHandler c w key).1 = .returned none then 1 else 0) := by
  have hq := syncHandler_queue c w key
  rcases hs : syncHandler c w key with ⟨ret, w1⟩
  rw [hs] at hq
  simp only at hq
  rcases ret with (_ | e) | _
  · refine ⟨[.forget (.key key), .done (.key key)], ?_, by simp, by simp, by simp, by simp⟩
    simp [processNextItem, hs, hq]
  · refine ⟨[.done (.key key)], ?_, by simp, by simp, by simp, by simp⟩
    simp [processNextItem, hs, hq]
  · refine ⟨[.done (.key key)], ?_, by simp, by simp, by simp, by simp⟩
    simp [processNextItem, hs, hq]

/-! ## C3: the end-to-end scenario -/

/-- C3 fails as stated at sync 3.  Syncs 1 and 2 of the scenario leave the resource
with the finalizer and a `Ready` condition observed at generation 1; after the edit
(generation 2, empty expression, which the validator rejects) `syncHandler` returns
`nil`, issues no call at all and leaves the resource without a `Failed` condition:
the generation check finds `2 - 1 <= 1`. -/
theorem C3_sync3_is_short_circuited :
    (syncHandler scenarioController (scenarioWorld scenarioRule) "ns/r1").2.indexer "ns/r1"
      = .ok (some scenarioAfterSync1) ∧
    (syncHandler scenarioController (scenarioWorld scenarioAfterSync1) "ns/r1").2.indexer "ns/r1"
      = .ok (some (scenarioAfterSync2 scenarioController)) ∧
    scenarioController.validate { Namespace := "cluster:ns:r1", Groups := [scenarioEmptyGroup] }
      ≠ [] ∧
    (syncHandler scenarioController (scenarioWorld (scenarioEdited scenarioController 2))
      "ns/r1").1 = .returned none ∧
    (syncHandler scenarioController (scenarioWorld (scenarioEdited scenarioController 2))
      "ns/r1").2.calls = [] ∧
    (syncHandler scenarioController (scenarioWorld (scenarioEdited scenarioController 2))
      "ns/r1").2.indexer "ns/r1" = .ok (some (scenarioEdited scenarioController 2)) ∧
    FindStatusCondition (scenarioEdited scenarioController 2).Status.Conditions
      ConditionTypeFailed = none := by
  refine ⟨by rfl, by rfl, by decide, by rfl, by rfl, by rfl, by rfl⟩

/-- C3 as amended.  With cluster name `cluster`, a validator that accepts the
translated `g1` and rejects the empty expression, a linter that prints `up == 0`
unchanged and a successful `CreateRuleGroup`: sync 1 adds the finalizer and issues
only the `Update`; sync 2 calls `CreateRuleGroup("cluster:ns:r1", g1)` exactly once
and sets `Ready` with observedGeneration 1; after the edit to generation 2 sync 3 is
short-circuited (success, no call, no change); had the edit brought the generation
to 3, the sync would set `Failed` with observedGeneration 3, make no remote call and
return an error. -/
theorem C3_scenario (c : Controller) (w1 w2 w3 w4 : World)
    (hcluster : c.ClusterName = "cluster")
    (hvalid : c.validate { Namespace := "cluster:ns:r1", Groups := [scenarioGroup] } = [])
    (hinvalid : c.validate { Namespace := "cluster:ns:r1", Groups := [scenarioEmptyGroup] } ≠ [])
    (hlint : c.lintExpr "up == 0" = .ok "up == 0")
    (hcreate : c.api w2.calls (.createRuleGroup "cluster:ns:r1" scenarioGroup) = none)
    (h1 : w1.indexer "ns/r1" = .ok (some scenarioRule))
    (h2 : w2.indexer "ns/r1" = .ok (some scenarioAfterSync1))
    (h3 : w3.indexer "ns/r1" = .ok (some (scenarioEdited c 2)))
    (h4 : w4.indexer "ns/r1" = .ok (some (scenarioEdited c 3))) :
    ((syncHandler c w1 "ns/r1").1 = .returned none ∧
      (syncHandler c w1 "ns/r1").2.calls = w1.calls ++ [.update "ns" scenarioAfterSync1] ∧
      RuleFinalizer ∈ scenarioAfterSync1.Finalizers) ∧
    ((syncHandler c w2 "ns/r1").1 = .returned none ∧
      (syncHandler c w2 "ns/r1").2.calls = w2.calls ++
        [.createRuleGroup "cluster:ns:r1" scenarioGroup, .update "ns" (scenarioAfterSync2 c)] ∧
      ∃ cond, FindStatusCondition (scenarioAfterSync2 c).Status.Conditions ConditionTypeReady
          = some cond ∧ cond.Status = ConditionTrue ∧ cond.ObservedGeneration = 1) ∧
    syncHandler c w3 "ns/r1" = (.returned none, w3) ∧
    (∃ err rule4, (syncHandler c w4 "ns/r1").1 = .returned (some err) ∧
      (syncHandler c w4 "ns/r1").2.calls = w4.calls ++ [.update "ns" rule4] ∧
      ∃ cond, FindStatusCondition rule4.Status.Conditions ConditionTypeFailed = some cond ∧
        cond.ObservedGeneration = 3 ∧ cond.Message = err.message) := by
  have hkey : SplitMetaNamespaceKey "ns/r1" = .ok ("ns", "r1") := by rfl
  refine ⟨?_, ?_, ?_, ?_⟩
  · have hs := syncHandler_applying c w1 "ns/r1" "ns" "r1" scenarioRule hkey h1 (by rfl) (by rfl)
    rw [applySteps_addFinalizer c "ns/r1" scenarioRule w1.calls (by rfl)] at hs
    rw [hs]
    exact ⟨rfl, rfl, by decide⟩
  · have htr : GetMimirRuleNamespace c.parseDuration scenarioAfterSync1.Spec
        (namespaceKey c.ClusterName scenarioAfterSync1.Namespace scenarioAfterSync1.Name)
        = .ok { Namespace := "cluster:ns:r1", Groups := [scenarioGroup] } := by
      rw [hcluster]; rfl
    have hl : LintExpressions c.lintExpr { Namespace := "cluster:ns:r1", Groups := [scenarioGroup] }
        = ({ Namespace := "cluster:ns:r1", Groups := [scenarioGroup] }, none) := by
      simp [LintExpressions, lintGroups, lintRules, scenarioGroup, hlint]
    have hall : AllSucceed c w2.calls (createCalls "cluster:ns:r1"
        (LintExpressions c.lintExpr
          { Namespace := "cluster:ns:r1", Groups := [scenarioGroup] }).1.Groups) := by
      rw [hl]
      intro i call hi
      cases i with
      | zero =>
        simp [createCalls] at hi
        subst hi
        simpa using hcreate
      | succ n => simp [createCalls] at hi
    have hs := syncHandler_applying c w2 "ns/r1" "ns" "r1" scenarioAfterSync1 hkey h2
      (by rfl) (by rfl)
    rw [applySteps_ready c "ns/r1" scenarioAfterSync1 w2.calls _ (by rfl) htr hvalid
      (by rw [hl]) hall] at hs
    rw [hs, hl]
    refine ⟨rfl, ?_, ?_⟩
    · simp [createCalls, scenarioAfterSync2]
      rfl
    · obtain ⟨cond, hfind, _, hstatus, hobs, _⟩ := find_setStatusCondition_same c.now
        scenarioAfterSync1.Status.Conditions (readyCondition c scenarioAfterSync1)
      exact ⟨cond, hfind, hstatus, hobs⟩
  · exact syncHandler_upToDate c w3 "ns/r1" "ns" "r1" (scenarioEdited c 2) hkey h3 (by rfl)
  · have htr : GetMimirRuleNamespace c.parseDuration (scenarioEdited c 3).Spec
        (namespaceKey c.ClusterName (scenarioEdited c 3).Namespace (scenarioEdited c 3).Name)
        = .ok { Namespace := "cluster:ns:r1", Groups := [scenarioEmptyGroup] } := by
      rw [hcluster]; rfl
    have hlen : (c.validate
        { Namespace := "cluster:ns:r1", Groups := [scenarioEmptyGroup] }).length > 0 :=
      List.length_pos.mpr hinvalid
    have hs := syncHandler_applying c w4 "ns/r1" "ns" "r1" (scenarioEdited c 3) hkey h4
      (by rfl) (by rfl)
    rw [applySteps_invalid c "ns/r1" (scenarioEdited c 3) w4.calls _ (by rfl) htr hlen] at hs
    rw [hs]
    refine ⟨_, _, rfl, rfl, ?_⟩
    obtain ⟨cond, hfind, _, _, hobs, hmsg, _⟩ := find_setStatusCondition_same c.now
      (scenarioEdited c 3).Status.Conditions (failedCondition c (scenarioEdited c 3)
        (Errorf_w "validation err: " (errorsJoin (c.validate
          { Namespace := "cluster:ns:r1", Groups := [scenarioEmptyGroup] }))))
    exact ⟨cond, hfind, hobs, hmsg⟩

/-- C3 at the scenario's own controller. -/
theorem C3_scenario_witness :
    ((syncHandler scenarioController (scenarioWorld scenarioRule) "ns/r1").2.calls
        = [.update "ns" scenarioAfterSync1]) ∧
    ((syncHandler scenarioController (scenarioWorld scenarioAfterSync1) "ns/r1").2.calls
        = [.createRuleGroup "cluster:ns:r1" scenarioGroup,
            .update "ns" (scenarioAfterSync2 scenarioController)]) ∧
    syncHandler scenarioController (scenarioWorld (scenarioEdited scenarioController 2)) "ns/r1"
      = (.returned none, scenarioWorld (scenarioEdited scenarioController 2)) ∧
    (∃ err, (syncHandler scenarioController (scenarioWorld (scenarioEdited scenarioController 3))
      "ns/r1").1 = .returned (some err)) :=
  have h := C3_scenario scenarioController (scenarioWorld scenarioRule)
    (scenarioWorld scenarioAfterSync1) (scenarioWorld (scenarioEdited scenarioController 2))
    (scenarioWorld (scenarioEdited scenarioController 3))
    rfl (by decide) (by decide) rfl rfl rfl rfl rfl rfl
  ⟨h.1.2.1, h.2.1.2.1, h.2.2.1, h.2.2.2.elim fun err h4 => ⟨err, h4.elim fun _ h5 => h5.1⟩⟩

/-! ## C4, C5: deletion cleanup -/

/-- C4 fails as stated: the generation check runs before the deletion branch.  A
resource with deletion timestamp set, the finalizer present and `Ready` observed at
its generation gets no `DeleteRuleGroup` call and keeps its finalizer.  And where
the cleanup does run, a failing call ends the loop (`g2` is never attempted when
`g1` fails), and a failing `Update` is what `syncHandler` returns. -/
theorem C4_deleting_ready_rule_is_skipped :
    (IsZero deletingReadyRule.DeletionTimestamp = false ∧
      ContainsFinalizer deletingReadyRule RuleFinalizer = true ∧
      deletingReadyRule.Spec.Groups.length = 1 ∧
      syncHandler scenarioController (scenarioWorld deletingReadyRule) "ns/r1"
        = (.returned none, scenarioWorld deletingReadyRule)) ∧
    (syncHandler (scenarioControllerFailing Call.isDelete) (scenarioWorld deletingRule)
        "ns/r1").2.calls = [.deleteRuleGroup "cluster:ns:r1" "g1"] ∧
    (syncHandler (scenarioControllerFailing Call.isUpdate) (scenarioWorld deletingRule)
        "ns/r1").1 = .returned (some { message := "boom", notFound := false }) := by
  refine ⟨⟨by rfl, by rfl, by rfl, by rfl⟩, by rfl, by rfl⟩

/-- C4 as amended: for a cached resource with deletion timestamp set and the
finalizer present that the generation check does not short-circuit, if every
`DeleteRuleGroup` call succeeds then the calls issued are one `DeleteRuleGroup` per
spec group, in spec order, under `<cluster>:<namespace>:<name>` with the group's
name, followed by one `Update` of the resource without the finalizer; the result
is the result of that `Update`, success when it succeeds. -/
theorem C4_deletion_cleanup (c : Controller) (w : World) (key ns name : String)
    (rule : MimirRule)
    (hkey : SplitMetaNamespaceKey key = .ok (ns, name))
    (hget : w.indexer (ns ++ "/" ++ name) = .ok (some rule))
    (hgen : upToDate rule = false)
    (hdel : IsZero rule.DeletionTimestamp = false)
    (hfin : ContainsFinalizer rule RuleFinalizer = true)
    (hall : AllSucceed c w.calls (deleteCalls (c.ClusterName ++ ":" ++ ns ++ ":" ++ name)
      rule.Spec.Groups)) :
    (syncHandler c w key).2.calls = w.calls ++
      rule.Spec.Groups.map
        (fun g => Call.deleteRuleGroup (c.ClusterName ++ ":" ++ ns ++ ":" ++ name) g.Name) ++
      [.update rule.Namespace (RemoveFinalizer rule RuleFinalizer)] ∧
    RuleFinalizer ∉ (RemoveFinalizer rule RuleFinalizer).Finalizers ∧
    (syncHandler c w key).2.indexer (ns ++ "/" ++ name)
      = .ok (some (RemoveFinalizer rule RuleFinalizer)) ∧
    (syncHandler c w key).1 = .returned (c.api
      (w.calls ++ deleteCalls (c.ClusterName ++ ":" ++ ns ++ ":" ++ name) rule.Spec.Groups)
      (.update rule.Namespace (RemoveFinalizer rule RuleFinalizer))) ∧
    (c.api (w.calls ++ deleteCalls (c.ClusterName ++ ":" ++ ns ++ ":" ++ name) rule.Spec.Groups)
        (.update rule.Namespace (RemoveFinalizer rule RuleFinalizer)) = none →
      (syncHandler c w key).1 = .returned none) := by
  have hs := syncHandler_deleting c w key ns name rule hkey hget hgen hdel
  rw [deletionSteps_success c ns name rule w.calls hfin hall] at hs
  rw [hs]
  refine ⟨rfl, ?_, ?_, rfl, ?_⟩
  · simp [RemoveFinalizer]
  · simp [metricsDefer, storeThrough]
  · intro hupd
    simp only [namespaceKey, hupd]

/-- C4 at a concrete input: the deleting resource with groups `g1`, `g2`, every call
succeeding. -/
theorem C4_deletion_cleanup_witness :
    (syncHandler scenarioController (scenarioWorld deletingRule) "ns/r1").2.calls
      = [.deleteRuleGroup "cluster:ns:r1" "g1", .deleteRuleGroup "cluster:ns:r1" "g2",
          .update "ns" { deletingRule with Finalizers := [] }] ∧
    (syncHandler scenarioController (scenarioWorld deletingRule) "ns/r1").1 = .returned none :=
  have h := C4_deletion_cleanup scenarioController (scenarioWorld deletingRule) "ns/r1" "ns" "r1"
    deletingRule rfl rfl rfl rfl rfl (fun _ _ _ => rfl)
  ⟨h.1, h.2.2.2.2 rfl⟩

/-- C5: when the deletion cleanup runs and the `DeleteRuleGroup` call for the group
at position `i` is the first to fail, with error `e`, the calls issued are exactly
the `DeleteRuleGroup` calls for the groups at positions `0..i`, in spec order (no
later group, no `Update`), `syncHandler` returns `e`, and the resource, finalizers
and conditions included, is as before. -/
theorem C5_deletion_first_failure (c : Controller) (w : World) (key ns name : String)
    (rule : MimirRule) (i : Nat) (e : Error)
    (hkey : SplitMetaNamespaceKey key = .ok (ns, name))
    (hget : w.indexer (ns ++ "/" ++ name) = .ok (some rule))
    (hgen : upToDate rule = false)
    (hdel : IsZero rule.DeletionTimestamp = false)
    (hfin : ContainsFinalizer rule RuleFinalizer = true)
    (hfail : FirstFailure c w.calls
      (deleteCalls (c.ClusterName ++ ":" ++ ns ++ ":" ++ name) rule.Spec.Groups) i e) :
    (syncHandler c w key).2.calls = w.calls ++
      (rule.Spec.Groups.take (i + 1)).map
        (fun g => Call.deleteRuleGroup (c.ClusterName ++ ":" ++ ns ++ ":" ++ name) g.Name) ∧
    i < rule.Spec.Groups.length ∧
    (∀ call ∈ (syncHandler c w key).2.calls.drop w.calls.length, call.isUpdate = false) ∧
    (syncHandler c w key).1 = .returned (some e) ∧
    (syncHandler c w key).2.indexer (ns ++ "/" ++ name) = .ok (some rule) := by
  have hs := syncHandler_deleting c w key ns name rule hkey hget hgen hdel
  rw [deletionSteps_failure c ns name rule w.calls i e hfin hfail] at hs
  rw [hs]
  have hcalls : (deleteCalls (namespaceKey c.ClusterName ns name) rule.Spec.Groups).take (i + 1)
      = (rule.Spec.Groups.take (i + 1)).map
        (fun g => Call.deleteRuleGroup (c.ClusterName ++ ":" ++ ns ++ ":" ++ name) g.Name) := by
    simp [deleteCalls, namespaceKey, List.map_take]
  refine ⟨?_, ?_, ?_, rfl, ?_⟩
  · simp [metricsDefer, hcalls]
  · obtain ⟨_, call, hc, _⟩ := hfail
    have hlt := (List.getElem?_eq_some_iff.mp hc).1
    simpa [deleteCalls] using hlt
  · intro call hcall
    simp only [metricsDefer, hcalls, List.drop_left] at hcall
    obtain ⟨g, _, rfl⟩ := List.mem_map.mp hcall
    rfl
  · simp [metricsDefer, storeThrough]

/-- C5 at a concrete input: groups `g1`, `g2`, the call for `g2` fails. -/
theorem C5_deletion_first_failure_witness :
    (syncHandler (scenarioControllerFailing isDeleteOfG2) (scenarioWorld deletingRule)
        "ns/r1").2.calls
      = [.deleteRuleGroup "cluster:ns:r1" "g1", .deleteRuleGroup "cluster:ns:r1" "g2"] ∧
    (syncHandler (scenarioControllerFailing isDeleteOfG2) (scenarioWorld deletingRule)
        "ns/r1").1 = .returned (some { message := "boom", notFound := false }) ∧
    (syncHandler (scenarioControllerFailing isDeleteOfG2) (scenarioWorld deletingRule)
        "ns/r1").2.indexer "ns/r1" = .ok (some deletingRule) :=
  have h := C5_deletion_first_failure (scenarioControllerFailing isDeleteOfG2)
    (scenarioWorld deletingRule) "ns/r1" "ns" "r1" deletingRule 1
    { message := "boom", notFound := false } rfl rfl rfl rfl rfl
    ⟨fun j call hj hc => by
        have hj0 : j = 0 := by omega
        subst hj0
        have hcall : call = .deleteRuleGroup "cluster:ns:r1" "g1" := by
          have : (some (Call.deleteRuleGroup "cluster:ns:r1" "g1")) = some call := hc
          exact (Option.some.inj this).symm
        subst hcall
        rfl,
      .deleteRuleGroup "cluster:ns:r1" "g2", rfl, rfl⟩
  ⟨h.1, h.2.2.2.1, h.2.2.2.2⟩

/-! ## C6: adding the finalizer -/

/-- C6 fails as stated: the generation check runs before the finalizer step.  A
resource that is not deleting, has no finalizer and carries `Ready` observed at its
generation is left alone: no finalizer added, no `Update`. -/
theorem C6_ready_rule_gets_no_finalizer :
    IsZero readyRuleWithoutFinalizer.DeletionTimestamp = true ∧
    ContainsFinalizer readyRuleWithoutFinalizer RuleFinalizer = false ∧
    syncHandler scenarioController (scenarioWorld readyRuleWithoutFinalizer) "ns/r1"
      = (.returned none, scenarioWorld readyRuleWithoutFinalizer) ∧
    (syncHandler scenarioController (scenarioWorld readyRuleWithoutFinalizer) "ns/r1").2.calls
      = [] ∧
    (syncHandler scenarioController (scenarioWorld readyRuleWithoutFinalizer)
      "ns/r1").2.indexer "ns/r1" = .ok (some readyRuleWithoutFinalizer) := by
  refine ⟨by rfl, by rfl, by rfl, by rfl, by rfl⟩

/-- C6 as amended: for a cached resource with deletion timestamp unset and the
finalizer absent that the generation check does not short-circuit, one
`syncHandler` call adds the finalizer, issues exactly one call, the `Update` of the
resource with the finalizer, hence no remote call, leaves the conditions as they
were, and returns success. -/
theorem C6_add_finalizer (c : Controller) (w : World) (key ns name : String)
    (rule : MimirRule)
    (hkey : SplitMetaNamespaceKey key = .ok (ns, name))
    (hget : w.indexer (ns ++ "/" ++ name) = .ok (some rule))
    (hgen : upToDate rule = false)
    (hdel : IsZero rule.DeletionTimestamp = true)
    (hfin : ContainsFinalizer rule RuleFinalizer = false) :
    (syncHandler c w key).2.calls = w.calls ++
      [.update rule.Namespace { rule with Finalizers := rule.Finalizers ++ [RuleFinalizer] }] ∧
    (syncHandler c w key).2.indexer (ns ++ "/" ++ name)
      = .ok (some { rule with Finalizers := rule.Finalizers ++ [RuleFinalizer] }) ∧
    (syncHandler c w key).1 = .returned none := by
  have hs := syncHandler_applying c w key ns name rule hkey hget hgen hdel
  rw [applySteps_addFinalizer c key rule w.calls hfin] at hs
  rw [hs]
  have hfin1 : rule.Finalizers.contains RuleFinalizer = false := hfin
  have hadd : AddFinalizer rule RuleFinalizer
      = { rule with Finalizers := rule.Finalizers ++ [RuleFinalizer] } := by
    unfold AddFinalizer
    rw [hfin1]
    rfl
  refine ⟨?_, ?_, rfl⟩
  · simp [metricsDefer, hadd]
  · simp [metricsDefer, storeThrough, hadd]

/-- C6 at the scenario's resource. -/
theorem C6_add_finalizer_witness :
    (syncHandler scenarioController (scenarioWorld scenarioRule) "ns/r1").2.calls
      = [.update "ns" { scenarioRule with Finalizers := [RuleFinalizer] }] ∧
    (syncHandler scenarioController (scenarioWorld scenarioRule) "ns/r1").1 = .returned none :=
  have h := C6_add_finalizer scenarioController (scenarioWorld scenarioRule) "ns/r1" "ns" "r1"
    scenarioRule rfl rfl rfl rfl rfl
  ⟨h.1, h.2.2⟩

/-! ## C7, C8, C9: applying the spec -/

/-- C7: for a resource that is not deleting, holds the finalizer, is not
short-circuited and whose spec translates, validates and lints without error, if
every `CreateRuleGroup` call succeeds then the calls issued are one
`CreateRuleGroup` per group, in order, under `<cluster>:<namespace>:<name>`,
followed by the status `Update`; the groups applied are as many as the spec groups
and carry their names in spec order; the resource sent and stored has a `Ready`
condition with status `True` and observedGeneration equal to its generation; and
`syncHandler` returns success. -/
theorem C7_apply_success (c : Controller) (w : World) (key ns name : String)
    (rule : MimirRule) (ruleNs : RuleNamespace)
    (hkey : SplitMetaNamespaceKey key = .ok (ns, name))
    (hget : w.indexer (ns ++ "/" ++ name) = .ok (some rule))
    (hgen : upToDate rule = false)
    (hdel : IsZero rule.DeletionTimestamp = true)
    (hfin : ContainsFinalizer rule RuleFinalizer = true)
    (htr : GetMimirRuleNamespace c.parseDuration rule.Spec
      (c.ClusterName ++ ":" ++ rule.Namespace ++ ":" ++ rule.Name) = .ok ruleNs)
    (hval : c.validate ruleNs = [])
    (hlint : (LintExpressions c.lintExpr ruleNs).2 = none)
    (hall : AllSucceed c w.calls
      (createCalls (c.ClusterName ++ ":" ++ rule.Namespace ++ ":" ++ rule.Name)
        (LintExpressions c.lintExpr ruleNs).1.Groups)) :
    (syncHandler c w key).2.calls = w.calls ++
      (LintExpressions c.lintExpr ruleNs).1.Groups.map
        (fun g => Call.createRuleGroup
          (c.ClusterName ++ ":" ++ rule.Namespace ++ ":" ++ rule.Name) g) ++
      [.update rule.Namespace (setCondition c rule (readyCondition c rule))] ∧
    (LintExpressions c.lintExpr ruleNs).1.Groups.length = rule.Spec.Groups.length ∧
    (LintExpressions c.lintExpr ruleNs).1.Groups.map (fun g => g.Name)
      = rule.Spec.Groups.map (fun g => g.Name) ∧
    (syncHandler c w key).2.indexer (ns ++ "/" ++ name)
      = .ok (some (setCondition c rule (readyCondition c rule))) ∧
    (∃ cond, FindStatusCondition (setCondition c rule (readyCondition c rule)).Status.Conditions
        ConditionTypeReady = some cond ∧
      cond.Status = ConditionTrue ∧ cond.ObservedGeneration = rule.Generation) ∧
    (syncHandler c w key).1 = .returned none := by
  have hshape := getMimirRuleNamespace_ok c.parseDuration rule.Spec _ ruleNs htr
  have hlshape := lintExpressions_shape c.lintExpr ruleNs
  have hnames : (LintExpressions c.lintExpr ruleNs).1.Groups.map (fun g => g.Name)
      = rule.Spec.Groups.map (fun g => g.Name) := hlshape.2.trans hshape.2
  have hs := syncHandler_applying c w key ns name rule hkey hget hgen hdel
  rw [applySteps_ready c key rule w.calls ruleNs hfin htr hval hlint
    (by rw [hshape.1]; exact hall)] at hs
  rw [hs]
  refine ⟨?_, ?_, hnames, ?_, ?_, rfl⟩
  · simp [metricsDefer, createCalls, hshape.1, setCondition]
  · simpa using congrArg List.length hnames
  · simp [metricsDefer, storeThrough]
  · obtain ⟨cond, hfind, _, hstatus, hobs, _⟩ := find_setStatusCondition_same c.now
      rule.Status.Conditions (readyCondition c rule)
    exact ⟨cond, hfind, hstatus, hobs⟩

/-- C7 at the scenario's sync 2. -/
theorem C7_apply_success_witness :
    (syncHandler scenarioController (scenarioWorld scenarioAfterSync1) "ns/r1").2.calls
      = [.createRuleGroup "cluster:ns:r1" scenarioGroup,
          .update "ns" (scenarioAfterSync2 scenarioController)] ∧
    (syncHandler scenarioController (scenarioWorld scenarioAfterSync1) "ns/r1").1
      = .returned none :=
  have h := C7_apply_success scenarioController (scenarioWorld scenarioAfterSync1) "ns/r1" "ns"
    "r1" scenarioAfterSync1 { Namespace := "cluster:ns:r1", Groups := [scenarioGroup] }
    rfl rfl rfl rfl rfl rfl (by decide) rfl (fun _ _ _ => rfl)
  ⟨h.1, h.2.2.2.2.2⟩

/-- C8: when the apply loop is reached and the `CreateRuleGroup` call for the group
at position `i` is the first to fail, with error `e`, the calls issued are exactly
the `CreateRuleGroup` calls for the groups at positions `0..i`, in order, followed
by the status `Update` (no later group, no `DeleteRuleGroup`); the resource sent
and stored has a `Failed` condition with observedGeneration equal to its generation
and a message that carries `e`; its `Ready` conditions are as before; and
`syncHandler` returns a non-nil error. -/
theorem C8_apply_first_failure (c : Controller) (w : World) (key ns name : String)
    (rule : MimirRule) (ruleNs : RuleNamespace) (i : Nat) (e : Error)
    (hkey : SplitMetaNamespaceKey key = .ok (ns, name))
    (hget : w.indexer (ns ++ "/" ++ name) = .ok (some rule))
    (hgen : upToDate rule = false)
    (hdel : IsZero rule.DeletionTimestamp = true)
    (hfin : ContainsFinalizer rule RuleFinalizer = true)
    (htr : GetMimirRuleNamespace c.parseDuration rule.Spec
      (c.ClusterName ++ ":" ++ rule.Namespace ++ ":" ++ rule.Name) = .ok ruleNs)
    (hval : c.validate ruleNs = [])
    (hlint : (LintExpressions c.lintExpr ruleNs).2 = none)
    (hfail : FirstFailure c w.calls
      (createCalls (c.ClusterName ++ ":" ++ rule.Namespace ++ ":" ++ rule.Name)
        (LintExpressions c.lintExpr ruleNs).1.Groups) i e) :
    ∃ rule1 : MimirRule,
      (syncHandler c w key).2.calls = w.calls ++
        ((LintExpressions c.lintExpr ruleNs).1.Groups.take (i + 1)).map
          (fun g => Call.createRuleGroup
            (c.ClusterName ++ ":" ++ rule.Namespace ++ ":" ++ rule.Name) g) ++
        [.update rule.Namespace rule1] ∧
      i < (LintExpressions c.lintExpr ruleNs).1.Groups.length ∧
      (∀ call ∈ (syncHandler c w key).2.calls.drop w.calls.length, call.isDelete = false) ∧
      (syncHandler c w key).2.indexer (ns ++ "/" ++ name) = .ok (some rule1) ∧
      (∃ cond, FindStatusCondition rule1.Status.Conditions ConditionTypeFailed = some cond ∧
        cond.ObservedGeneration = rule.Generation ∧
        cond.Message = "error creating rule group: " ++ e.message) ∧
      rule1.Status.Conditions.filter (fun cond => cond.Type_ == ConditionTypeReady)
        = rule.Status.Conditions.filter (fun cond => cond.Type_ == ConditionTypeReady) ∧
      (syncHandler c w key).1
        = .returned (some (Errorf_w "error creating rule group: " e)) := by
  have hshape := getMimirRuleNamespace_ok c.parseDuration rule.Spec _ ruleNs htr
  have hs := syncHandler_applying c w key ns name rule hkey hget hgen hdel
  rw [applySteps_createError c key rule w.calls ruleNs i e hfin htr hval hlint
    (by rw [hshape.1]; exact hfail)] at hs
  rw [hs]
  refine ⟨setCondition c rule (failedCondition c rule (Errorf_w "error creating rule group: " e)),
    ?_, ?_, ?_, ?_, ?_, ?_, rfl⟩
  · simp [metricsDefer, createCalls, hshape.1, setCondition, List.map_take]
  · obtain ⟨_, call, hc, _⟩ := hfail
    have hlt := (List.getElem?_eq_some_iff.mp hc).1
    simpa [createCalls] using hlt
  · intro call hcall
    simp only [metricsDefer, List.append_assoc, List.drop_left] at hcall
    rcases List.mem_append.mp hcall with hmem | hmem
    · have hmem1 := List.mem_of_mem_take hmem
      simp only [createCalls] at hmem1
      obtain ⟨g, _, rfl⟩ := List.mem_map.mp hmem1
      rfl
    · simp at hmem
      subst hmem
      rfl
  · simp [metricsDefer, storeThrough]
  · obtain ⟨cond, hfind, _, _, hobs, hmsg, _⟩ := find_setStatusCondition_same c.now
      rule.Status.Conditions
      (failedCondition c rule (Errorf_w "error creating rule group: " e))
    exact ⟨cond, hfind, hobs, hmsg⟩
  · have hne : ConditionTypeReady ≠ ConditionTypeFailed := by decide
    exact filter_setStatusCondition_other c.now rule.Status.Conditions _ ConditionTypeReady hne

/-- C8 at a concrete input: groups `g1`, `g2`, the call for `g2` fails. -/
theorem C8_apply_first_failure_witness :
    (syncHandler (scenarioControllerFailing isCreateOfG2) (scenarioWorld twoGroupsRule)
        "ns/r1").1
      = .returned (some { message := "error creating rule group: boom", notFound := false }) ∧
    ∃ rule1, (syncHandler (scenarioControllerFailing isCreateOfG2) (scenarioWorld twoGroupsRule)
        "ns/r1").2.calls
      = [.createRuleGroup "cluster:ns:r1" (emptyGroupNamed "g1"),
          .createRuleGroup "cluster:ns:r1" (emptyGroupNamed "g2"), .update "ns" rule1] :=
  have h := C8_apply_first_failure (scenarioControllerFailing isCreateOfG2)
    (scenarioWorld twoGroupsRule) "ns/r1" "ns" "r1" twoGroupsRule
    { Namespace := "cluster:ns:r1", Groups := [emptyGroupNamed "g1", emptyGroupNamed "g2"] } 1
    { message := "boom", notFound := false } rfl rfl rfl rfl rfl rfl (by decide) rfl
    ⟨fun j call hj hc => by
        have hj0 : j = 0 := by omega
        subst hj0
        have hcall : call = .createRuleGroup "cluster:ns:r1" (emptyGroupNamed "g1") := by
          have : (some (Call.createRuleGroup "cluster:ns:r1" (emptyGroupNamed "g1")))
              = some call := hc
          exact (Option.some.inj this).symm
        subst hcall
        rfl,
      .createRuleGroup "cluster:ns:r1" (emptyGroupNamed "g2"), rfl, rfl⟩
  h.elim fun rule1 h1 => ⟨h1.2.2.2.2.2.2, rule1, h1.1⟩

/-- The part of C9 that holds: for a resource that is not deleting, holds the
finalizer and is not short-circuited, if the translation returns an error, or the
validator reports at least one error, or the lint pass returns an error, then the
only call issued is
the status `Update` (no `CreateRuleGroup`, no `DeleteRuleGroup`), the resource sent
and stored has a `Failed` condition with observedGeneration equal to its generation
whose message is the message of the returned error, that message carries the
failure, and `syncHandler` returns a non-nil error. -/
theorem invalid_spec_sets_failed (c : Controller) (w : World) (key ns name : String)
    (rule : MimirRule)
    (hkey : SplitMetaNamespaceKey key = .ok (ns, name))
    (hget : w.indexer (ns ++ "/" ++ name) = .ok (some rule))
    (hgen : upToDate rule = false)
    (hdel : IsZero rule.DeletionTimestamp = true)
    (hfin : ContainsFinalizer rule RuleFinalizer = true)
    (hbad : (∃ e, GetMimirRuleNamespace c.parseDuration rule.Spec
        (c.ClusterName ++ ":" ++ rule.Namespace ++ ":" ++ rule.Name) = .error e) ∨
      ∃ ruleNs, GetMimirRuleNamespace c.parseDuration rule.Spec
          (c.ClusterName ++ ":" ++ rule.Namespace ++ ":" ++ rule.Name) = .ok ruleNs ∧
        (c.validate ruleNs ≠ [] ∨ ∃ e, (LintExpressions c.lintExpr ruleNs).2 = some e)) :
    ∃ (err : Error) (rule1 : MimirRule),
      (syncHandler c w key).1 = .returned (some err) ∧
      (syncHandler c w key).2.calls = w.calls ++ [.update rule.Namespace rule1] ∧
      (syncHandler c w key).2.indexer (ns ++ "/" ++ name) = .ok (some rule1) ∧
      (∃ cond, FindStatusCondition rule1.Status.Conditions ConditionTypeFailed = some cond ∧
        cond.ObservedGeneration = rule.Generation ∧ cond.Message = err.message) ∧
      (∀ e, GetMimirRuleNamespace c.parseDuration rule.Spec
          (c.ClusterName ++ ":" ++ rule.Namespace ++ ":" ++ rule.Name) = .error e →
        err.message = "error getting mimir rule namespace: " ++ e.message) ∧
      (∀ ruleNs, GetMimirRuleNamespace c.parseDuration rule.Spec
          (c.ClusterName ++ ":" ++ rule.Namespace ++ ":" ++ rule.Name) = .ok ruleNs →
        c.validate ruleNs ≠ [] →
        err.message = "validation err: " ++
          "\n".intercalate ((c.validate ruleNs).map Error.message)) ∧
      (∀ ruleNs e, GetMimirRuleNamespace c.parseDuration rule.Spec
          (c.ClusterName ++ ":" ++ rule.Namespace ++ ":" ++ rule.Name) = .ok ruleNs →
        c.validate ruleNs = [] → (LintExpressions c.lintExpr ruleNs).2 = some e →
        err.message = "rule \x27" ++ key ++ "\x27 in work queue has invalid expressions: "
          ++ e.message) := by
  have hs := syncHandler_applying c w key ns name rule hkey hget hgen hdel
  have hcond : ∀ err : Error, ∃ cond,
      FindStatusCondition (setCondition c rule (failedCondition c rule err)).Status.Conditions
        ConditionTypeFailed = some cond ∧
      cond.ObservedGeneration = rule.Generation ∧ cond.Message = err.message := by
    intro err
    obtain ⟨cond, hfind, _, _, hobs, hmsg, _⟩ := find_setStatusCondition_same c.now
      rule.Status.Conditions (failedCondition c rule err)
    exact ⟨cond, hfind, hobs, hmsg⟩
  rcases hbad with ⟨e, htr⟩ | ⟨ruleNs, htr, hrest⟩
  · rw [applySteps_translateError c key rule w.calls e hfin htr] at hs
    rw [hs]
    refine ⟨_, _, rfl, rfl, ?_, hcond _, ?_, ?_, ?_⟩
    · simp [metricsDefer, storeThrough]
    · intro e1 h1
      rw [htr] at h1
      cases h1
      rfl
    · intro ruleNs h1
      rw [htr] at h1
      cases h1
    · intro ruleNs e1 h1
      rw [htr] at h1
      cases h1
  · by_cases hval : c.validate ruleNs = []
    · rcases hrest with hne | ⟨e, hlint⟩
      · exact absurd hval hne
      · rw [applySteps_lintError c key rule w.calls ruleNs e hfin htr hval hlint] at hs
        rw [hs]
        refine ⟨_, _, rfl, rfl, ?_, hcond _, ?_, ?_, ?_⟩
        · simp [metricsDefer, storeThrough]
        · intro e1 h1
          rw [htr] at h1
          cases h1
        · intro ruleNs1 h1 hne
          rw [htr] at h1
          cases h1
          exact absurd hval hne
        · intro ruleNs1 e1 h1 _ hl1
          rw [htr] at h1
          cases h1
          rw [hlint] at hl1
          cases hl1
          rfl
    · rw [applySteps_invalid c key rule w.calls ruleNs hfin htr
        (List.length_pos.mpr hval)] at hs
      rw [hs]
      refine ⟨_, _, rfl, rfl, ?_, hcond _, ?_, ?_, ?_⟩
      · simp [metricsDefer, storeThrough]
      · intro e1 h1
        rw [htr] at h1
        cases h1
      · intro ruleNs1 h1 _
        rw [htr] at h1
        cases h1
        rfl
      · intro ruleNs1 e1 h1 hv1
        rw [htr] at h1
        cases h1
        exact absurd hv1 hval

/-- The scenario's resource edited to an empty expression, at generation 3: the
validator rejects it, `Failed` is set and an error is returned. -/
theorem invalid_spec_sets_failed_example :
    ∃ err rule1,
      (syncHandler scenarioController (scenarioWorld (scenarioEdited scenarioController 3))
        "ns/r1").1 = .returned (some err) ∧
      (syncHandler scenarioController (scenarioWorld (scenarioEdited scenarioController 3))
        "ns/r1").2.calls = [.update "ns" rule1] :=
  have h := invalid_spec_sets_failed scenarioController
    (scenarioWorld (scenarioEdited scenarioController 3)) "ns/r1" "ns" "r1"
    (scenarioEdited scenarioController 3) rfl rfl rfl rfl rfl
    (Or.inr ⟨{ Namespace := "cluster:ns:r1", Groups := [scenarioEmptyGroup] }, rfl,
      Or.inl (by decide)⟩)
  h.elim fun err h1 => h1.elim fun rule1 h2 => ⟨err, rule1, h2.1, h2.2.1⟩

/-- C9, what the code does when the translation fails by panicking (a non-empty
evaluation delay, whether it parses or not): for a resource that is not deleting,
holds the finalizer and is not short-circuited, `syncHandler` does not return; the
only call issued is the deferred `Update`, and it carries the resource exactly as
it was fetched, so no `Failed` condition is set and no error is returned. -/
theorem C9_translation_panic_sets_no_failed (c : Controller) (w : World)
    (key ns name : String) (rule : MimirRule)
    (hkey : SplitMetaNamespaceKey key = .ok (ns, name))
    (hget : w.indexer (ns ++ "/" ++ name) = .ok (some rule))
    (hgen : upToDate rule = false)
    (hdel : IsZero rule.DeletionTimestamp = true)
    (hfin : ContainsFinalizer rule RuleFinalizer = true)
    (hpanic : GetMimirRuleNamespace c.parseDuration rule.Spec
      (c.ClusterName ++ ":" ++ rule.Namespace ++ ":" ++ rule.Name) = .panic) :
    (syncHandler c w key).1 = .panicked ∧
    (syncHandler c w key).2.calls = w.calls ++ [.update rule.Namespace rule] ∧
    (syncHandler c w key).2.indexer (ns ++ "/" ++ name) = .ok (some rule) := by
  have hpanic1 : GetMimirRuleNamespace c.parseDuration rule.Spec
      (namespaceKey c.ClusterName rule.Namespace rule.Name) = .panic := hpanic
  have hsteps : applySteps c key rule w.calls
      = { ret := .panicked, err := none, rule := rule, calls := w.calls } := by
    simp [applySteps, hfin, hpanic1]
  have hs := syncHandler_applying c w key ns name rule hkey hget hgen hdel
  rw [hsteps] at hs
  rw [hs]
  refine ⟨rfl, rfl, ?_⟩
  simp [metricsDefer, storeThrough]

/-- C9 at a concrete input: the scenario's resource with the finalizer whose group
`g1` has the evaluation delay `soon`, which the duration parser rejects.  The
translation fails, yet `syncHandler` panics, the only call is the `Update` of the
unchanged resource, and no `Failed` condition is set. -/
theorem C9_translation_panic_sets_no_failed_witness :
    FailsToParse scenarioController.parseDuration "soon" ∧
    (syncHandler scenarioController (scenarioWorld unparsableDelayRule) "ns/r1").1
      = .panicked ∧
    (syncHandler scenarioController (scenarioWorld unparsableDelayRule) "ns/r1").2.calls
      = [.update "ns" unparsableDelayRule] ∧
    (syncHandler scenarioController (scenarioWorld unparsableDelayRule) "ns/r1").2.indexer
      "ns/r1" = .ok (some unparsableDelayRule) ∧
    FindStatusCondition unparsableDelayRule.Status.Conditions ConditionTypeFailed = none :=
  have h := C9_translation_panic_sets_no_failed scenarioController
    (scenarioWorld unparsableDelayRule) "ns/r1" "ns" "r1" unparsableDelayRule
    rfl rfl rfl rfl rfl rfl
  ⟨⟨by decide, { message := "not a valid duration string: soon", notFound := false }, rfl⟩,
    h.1, h.2.1, h.2.2, rfl⟩

/-! ## C10: the generation check -/

/-- On generations and observed generations in the range `0 .. 2^63 - 1` the Go
subtraction is the mathematical one. -/
theorem subInt64_eq_sub (a b : Int) (ha : 0 ≤ a) (ha1 : a < 2 ^ 63) (hb : 0 ≤ b)
    (hb1 : b < 2 ^ 63) : subInt64 a b = a - b := by
  unfold subInt64
  omega

theorem subInt64_self (a : Int) : subInt64 a a = 0 := by
  unfold subInt64
  omega

/-- C10: for a cached resource whose `Ready` condition satisfies
`generation - observedGeneration <= 1`, `syncHandler` returns success and leaves
the world as it was: no remote call, no `Update`, no change to the resource.
Consequently a sync on a resource on which `Ready` was just set for its generation
returns success and leaves the world as it was, so it performs no remote call. -/
theorem C10_idempotency (c : Controller) (w : World) (key ns name : String)
    (rule : MimirRule) (cond : Condition)
    (hkey : SplitMetaNamespaceKey key = .ok (ns, name))
    (hget : w.indexer (ns ++ "/" ++ name) = .ok (some rule))
    (hready : FindStatusCondition rule.Status.Conditions ConditionTypeReady = some cond)
    (hle : subInt64 rule.Generation cond.ObservedGeneration ≤ 1) :
    syncHandler c w key = (.returned none, w) ∧
    (syncHandler c w key).2.calls = w.calls ∧
    ∀ (c0 : Controller) (rule0 : MimirRule) (w2 : World),
      w2.indexer (ns ++ "/" ++ name)
          = .ok (some (setCondition c0 rule0 (readyCondition c0 rule0))) →
        syncHandler c w2 key = (.returned none, w2) := by
  have hup : upToDate rule = true := by
    simp [upToDate, hready, hle]
  have hs := syncHandler_upToDate c w key ns name rule hkey hget hup
  refine ⟨hs, by rw [hs], ?_⟩
  intro c0 rule0 w2 hget2
  obtain ⟨cond2, hfind, _, _, hobs, _⟩ := find_setStatusCondition_same c0.now
    rule0.Status.Conditions (readyCondition c0 rule0)
  have hup2 : upToDate (setCondition c0 rule0 (readyCondition c0 rule0)) = true := by
    have hfind2 : FindStatusCondition
        (setCondition c0 rule0 (readyCondition c0 rule0)).Status.Conditions ConditionTypeReady
        = some cond2 := hfind
    have hgen2 : (setCondition c0 rule0 (readyCondition c0 rule0)).Generation
        = rule0.Generation := rfl
    have hobs2 : cond2.ObservedGeneration = rule0.Generation := hobs
    simp [upToDate, hfind2, hgen2, hobs2, subInt64_self]
  exact syncHandler_upToDate c w2 key ns name _ hkey hget2 hup2

/-- C10 at the scenario: a second sync after sync 2 changes nothing. -/
theorem C10_idempotency_witness :
    syncHandler scenarioController (scenarioWorld (scenarioAfterSync2 scenarioController)) "ns/r1"
      = (.returned none, scenarioWorld (scenarioAfterSync2 scenarioController)) ∧
    syncHandler scenarioController
        (syncHandler scenarioController (scenarioWorld scenarioAfterSync1) "ns/r1").2 "ns/r1"
      = (.returned none,
          (syncHandler scenarioController (scenarioWorld scenarioAfterSync1) "ns/r1").2) :=
  have h := C10_idempotency scenarioController
    (scenarioWorld (scenarioAfterSync2 scenarioController)) "ns/r1" "ns" "r1"
    (scenarioAfterSync2 scenarioController)
    (readyCondition scenarioController scenarioAfterSync1) rfl rfl rfl (by decide)
  ⟨h.1, h.2.2 scenarioController scenarioAfterSync1
    (syncHandler scenarioController (scenarioWorld scenarioAfterSync1) "ns/r1").2 rfl⟩

/-! ## Every path of `syncHandler` -/

/-- An invocation either returns before the deferred functions are set up and
leaves the world as it was, or it has fetched a resource that the generation check
lets through. -/
theorem syncHandler_paths (c : Controller) (w : World) (key : String) :
    (syncHandler c w key).2 = w ∨
    ∃ ns name rule, SplitMetaNamespaceKey key = .ok (ns, name) ∧
      w.indexer (ns ++ "/" ++ name) = .ok (some rule) ∧ upToDate rule = false := by
  rcases hk : SplitMetaNamespaceKey key with e | ⟨ns, name⟩
  · left
    simp [syncHandler, hk]
  · rcases hg : w.indexer (ns ++ "/" ++ name) with e | (_ | rule)
    · left
      simp only [syncHandler, hk, mimirRuleNamespaceLister.Get, hg]
      split <;> rfl
    · left
      simp [syncHandler, hk, mimirRuleNamespaceLister.Get, hg, NewNotFound]
    · by_cases hu : upToDate rule = true
      · left
        rw [syncHandler_upToDate c w key ns name rule hk hg hu]
      · right
        exact ⟨ns, name, rule, rfl, hg, by simpa using hu⟩

theorem storeThrough_same (indexer : String → Except Error (Option MimirRule))
    (storeKey : String) (rule : MimirRule) :
    storeThrough indexer storeKey rule storeKey = .ok (some rule) := by
  simp [storeThrough]

theorem applySteps_keeps_finalizer (c : Controller) (key : String) (rule : MimirRule)
    (calls : List Call) (hfin : ContainsFinalizer rule RuleFinalizer = true) :
    (applySteps c key rule calls).rule.Finalizers = rule.Finalizers := by
  unfold applySteps
  simp only [hfin]
  split
  · rename_i h
    simp at h
  · split
    · rfl
    · rfl
    · split
      · rfl
      · split
        · rfl
        · split <;> rfl

/-- The conditions `applySteps` leaves behind: those it found, or those with one
condition of type `Ready` or `Failed` set, observed at the generation of the
resource. -/
theorem applySteps_conditions (c : Controller) (key : String) (rule : MimirRule)
    (calls : List Call) :
    (applySteps c key rule calls).rule.Status.Conditions = rule.Status.Conditions ∨
    ∃ cond : Condition, cond.ObservedGeneration = rule.Generation ∧
      (cond.Type_ = ConditionTypeReady ∨ cond.Type_ = ConditionTypeFailed) ∧
      (applySteps c key rule calls).rule.Status.Conditions
        = SetStatusCondition c.now rule.Status.Conditions cond := by
  unfold applySteps
  split
  · left
    unfold AddFinalizer
    split <;> rfl
  · split
    · left; rfl
    · right; exact ⟨_, rfl, Or.inr rfl, rfl⟩
    · split
      · right; exact ⟨_, rfl, Or.inr rfl, rfl⟩
      · split
        · right; exact ⟨_, rfl, Or.inr rfl, rfl⟩
        · split
          · right; exact ⟨_, rfl, Or.inr rfl, rfl⟩
          · right; exact ⟨_, rfl, Or.inl rfl, rfl⟩

theorem applySteps_generation (c : Controller) (key : String) (rule : MimirRule)
    (calls : List Call) : (applySteps c key rule calls).rule.Generation = rule.Generation := by
  unfold applySteps
  split
  · unfold AddFinalizer
    split <;> rfl
  · split
    · rfl
    · rfl
    · split
      · rfl
      · split
        · rfl
        · split <;> rfl

/-- The calls `applySteps` issues are `CreateRuleGroup` calls, and it issues none
unless the resource carries the finalizer. -/
theorem applySteps_calls (c : Controller) (key : String) (rule : MimirRule)
    (calls : List Call) :
    ∃ new, (applySteps c key rule calls).calls = calls ++ new ∧
      (∀ call ∈ new, call.isCreate = true) ∧
      (ContainsFinalizer rule RuleFinalizer = false → new = []) := by
  by_cases hfin : ContainsFinalizer rule RuleFinalizer = true
  · have hloop : ∀ (k : String) (groups : List RwRuleGroup),
        ∃ new, (createGroups c k groups calls).2 = calls ++ new ∧
          ∀ call ∈ new, call.isCreate = true := by
      intro k groups
      rcases allSucceed_or_firstFailure c (createCalls k groups) calls with hall | ⟨i, e, hf⟩
      · refine ⟨createCalls k groups, ?_, ?_⟩
        · rw [createGroups_eq_issueAll, issueAll_of_allSucceed c _ calls hall]
        · intro call hcall
          obtain ⟨g, _, rfl⟩ := List.mem_map.mp hcall
          rfl
      · refine ⟨(createCalls k groups).take (i + 1), ?_, ?_⟩
        · rw [createGroups_eq_issueAll, issueAll_of_firstFailure c _ calls i e hf]
        · intro call hcall
          obtain ⟨g, _, rfl⟩ := List.mem_map.mp (List.mem_of_mem_take hcall)
          rfl
    unfold applySteps
    simp only [hfin]
    split
    · rename_i h
      simp at h
    · split
      · exact ⟨[], by simp, by simp, fun _ => rfl⟩
      · exact ⟨[], by simp, by simp, fun _ => rfl⟩
      · split
        · exact ⟨[], by simp, by simp, fun _ => rfl⟩
        · split
          · exact ⟨[], by simp, by simp, fun _ => rfl⟩
          · rename_i linted _
            obtain ⟨new, hnew, hcreate⟩ := hloop linted.Namespace linted.Groups
            split
            · rename_i e calls1 heq
              rw [heq] at hnew
              exact ⟨new, hnew, hcreate, fun h => by simp at h⟩
            · rename_i calls1 heq
              rw [heq] at hnew
              exact ⟨new, hnew, hcreate, fun h => by simp at h⟩
  · have hfin1 : ContainsFinalizer rule RuleFinalizer = false := by simpa using hfin
    rw [applySteps_addFinalizer c key rule calls hfin1]
    exact ⟨[], by simp, by simp, fun _ => rfl⟩

/-- The deletion branch issues no `CreateRuleGroup` call. -/
theorem deletionSteps_calls (c : Controller) (ns name : String) (rule : MimirRule)
    (calls : List Call) :
    ∃ new, (deletionSteps c ns name rule calls).calls = calls ++ new ∧
      ∀ call ∈ new, call.isCreate = false := by
  by_cases hfin : ContainsFinalizer rule RuleFinalizer = true
  · rcases allSucceed_or_firstFailure c
      (deleteCalls (namespaceKey c.ClusterName ns name) rule.Spec.Groups) calls
      with hall | ⟨i, e, hf⟩
    · rw [deletionSteps_success c ns name rule calls hfin hall]
      refine ⟨deleteCalls (namespaceKey c.ClusterName ns name) rule.Spec.Groups ++
        [.update rule.Namespace (RemoveFinalizer rule RuleFinalizer)], by simp, ?_⟩
      intro call hcall
      rcases List.mem_append.mp hcall with h | h
      · obtain ⟨g, _, rfl⟩ := List.mem_map.mp h
        rfl
      · simp at h
        subst h
        rfl
    · rw [deletionSteps_failure c ns name rule calls i e hfin hf]
      refine ⟨_, rfl, ?_⟩
      intro call hcall
      obtain ⟨g, _, rfl⟩ := List.mem_map.mp (List.mem_of_mem_take hcall)
      rfl
  · refine ⟨[], ?_, by simp⟩
    simp [deletionSteps, hfin]

/-! ## C11: creates only with the finalizer, removal only after cleanup -/

/-- C11: whatever the remote client answers, the calls of one `syncHandler`
invocation extend the log, and (1) if one of them is a `CreateRuleGroup` then the
resource fetched from the cache had its deletion timestamp unset and already
carried the finalizer; (2) a resource with deletion timestamp set receives no
`CreateRuleGroup` call; (3) if the resource carried the finalizer and no longer
carries it after the invocation, then the `DeleteRuleGroup` calls for every spec
group, in spec order, were issued and all succeeded, and the `Update` that persists
the removal comes after them. -/
theorem C11_create_needs_finalizer (c : Controller) (w : World) (key : String) :
    w.calls <+: (syncHandler c w key).2.calls ∧
    (∀ call ∈ (syncHandler c w key).2.calls.drop w.calls.length, call.isCreate = true →
      ∃ ns name rule, SplitMetaNamespaceKey key = .ok (ns, name) ∧
        w.indexer (ns ++ "/" ++ name) = .ok (some rule) ∧
        IsZero rule.DeletionTimestamp = true ∧ ContainsFinalizer rule RuleFinalizer = true) ∧
    (∀ ns name rule, SplitMetaNamespaceKey key = .ok (ns, name) →
      w.indexer (ns ++ "/" ++ name) = .ok (some rule) →
      IsZero rule.DeletionTimestamp = false →
      ∀ call ∈ (syncHandler c w key).2.calls.drop w.calls.length, call.isCreate = false) ∧
    (∀ ns name rule rule1, SplitMetaNamespaceKey key = .ok (ns, name) →
      w.indexer (ns ++ "/" ++ name) = .ok (some rule) →
      ContainsFinalizer rule RuleFinalizer = true →
      (syncHandler c w key).2.indexer (ns ++ "/" ++ name) = .ok (some rule1) →
      ContainsFinalizer rule1 RuleFinalizer = false →
      AllSucceed c w.calls
        (deleteCalls (c.ClusterName ++ ":" ++ ns ++ ":" ++ name) rule.Spec.Groups) ∧
      (syncHandler c w key).2.calls = w.calls ++
        rule.Spec.Groups.map
          (fun g => Call.deleteRuleGroup (c.ClusterName ++ ":" ++ ns ++ ":" ++ name) g.Name) ++
        [.update rule.Namespace rule1]) := by
  have hcreate : ∀ call ∈ (syncHandler c w key).2.calls.drop w.calls.length,
      call.isCreate = true →
      ∃ ns name rule, SplitMetaNamespaceKey key = .ok (ns, name) ∧
        w.indexer (ns ++ "/" ++ name) = .ok (some rule) ∧
        IsZero rule.DeletionTimestamp = true ∧ ContainsFinalizer rule RuleFinalizer = true := by
    intro call hcall hisCreate
    rcases syncHandler_paths c w key with hw | ⟨ns, name, rule, hkey, hget, hgen⟩
    · rw [hw] at hcall
      simp at hcall
    · refine ⟨ns, name, rule, hkey, hget, ?_⟩
      by_cases hdel : IsZero rule.DeletionTimestamp = true
      · refine ⟨hdel, ?_⟩
        rw [syncHandler_applying c w key ns name rule hkey hget hgen hdel] at hcall
        obtain ⟨new, hnew, _, hnone⟩ := applySteps_calls c key rule w.calls
        by_cases hfin : ContainsFinalizer rule RuleFinalizer = true
        · exact hfin
        · have hfin1 : ContainsFinalizer rule RuleFinalizer = false := by simpa using hfin
          have hempty := hnone hfin1
          subst hempty
          simp only [metricsDefer, hnew, List.append_nil, List.drop_left] at hcall
          simp at hcall
          subst hcall
          cases hisCreate
      · have hdel1 : IsZero rule.DeletionTimestamp = false := by simpa using hdel
        rw [syncHandler_deleting c w key ns name rule hkey hget hgen hdel1] at hcall
        obtain ⟨new, hnew, hno⟩ := deletionSteps_calls c ns name rule w.calls
        simp only [metricsDefer, hnew, List.drop_left] at hcall
        rw [hno call hcall] at hisCreate
        cases hisCreate
  refine ⟨?_, hcreate, ?_, ?_⟩
  · rcases syncHandler_paths c w key with hw | ⟨ns, name, rule, hkey, hget, hgen⟩
    · rw [hw]
    · by_cases hdel : IsZero rule.DeletionTimestamp = true
      · rw [syncHandler_applying c w key ns name rule hkey hget hgen hdel]
        obtain ⟨new, hnew, _, _⟩ := applySteps_calls c key rule w.calls
        simp only [metricsDefer, hnew, List.append_assoc]
        exact List.prefix_append _ _
      · have hdel1 : IsZero rule.DeletionTimestamp = false := by simpa using hdel
        rw [syncHandler_deleting c w key ns name rule hkey hget hgen hdel1]
        obtain ⟨new, hnew, _⟩ := deletionSteps_calls c ns name rule w.calls
        simp only [metricsDefer, hnew]
        exact List.prefix_append _ _
  · intro ns name rule hkey hget hdel call hcall
    cases hc : call.isCreate with
    | false => rfl
    | true =>
      obtain ⟨ns1, name1, rule1, hkey1, hget1, hdel1, _⟩ := hcreate call hcall hc
      rw [hkey] at hkey1
      cases hkey1
      rw [hget] at hget1
      cases hget1
      rw [hdel] at hdel1
      cases hdel1
  · intro ns name rule rule1 hkey hget hfin hstored hgone
    by_cases hgen : upToDate rule = true
    · rw [syncHandler_upToDate c w key ns name rule hkey hget hgen] at hstored
      simp only at hstored
      rw [hget] at hstored
      cases hstored
      rw [hfin] at hgone
      cases hgone
    · have hgen1 : upToDate rule = false := by simpa using hgen
      by_cases hdel : IsZero rule.DeletionTimestamp = true
      · rw [syncHandler_applying c w key ns name rule hkey hget hgen1 hdel] at hstored
        simp only [metricsDefer, storeThrough_same] at hstored
        cases hstored
        have hkeep := applySteps_keeps_finalizer c key rule w.calls hfin
        simp only [ContainsFinalizer, hkeep] at hgone
        simp only [ContainsFinalizer] at hfin
        rw [hfin] at hgone
        cases hgone
      · have hdel1 : IsZero rule.DeletionTimestamp = false := by simpa using hdel
        have hs := syncHandler_deleting c w key ns name rule hkey hget hgen1 hdel1
        rcases allSucceed_or_firstFailure c
          (deleteCalls (namespaceKey c.ClusterName ns name) rule.Spec.Groups) w.calls
          with hall | ⟨i, e, hf⟩
        · rw [deletionSteps_success c ns name rule w.calls hfin hall] at hs
          rw [hs] at hstored ⊢
          simp only [metricsDefer, storeThrough_same] at hstored
          cases hstored
          exact ⟨hall, rfl⟩
        · rw [deletionSteps_failure c ns name rule w.calls i e hfin hf] at hs
          rw [hs] at hstored
          simp only [metricsDefer, storeThrough_same] at hstored
          cases hstored
          rw [hfin] at hgone
          cases hgone

/-- C11 at concrete inputs: sync 2 of the scenario issues a `CreateRuleGroup`, and
the resource it fetched is not deleting and carries the finalizer. -/
theorem C11_create_needs_finalizer_witness :
    Call.createRuleGroup "cluster:ns:r1" scenarioGroup ∈
      (syncHandler scenarioController (scenarioWorld scenarioAfterSync1) "ns/r1").2.calls ∧
    ∃ ns name rule, SplitMetaNamespaceKey "ns/r1" = .ok (ns, name) ∧
      (scenarioWorld scenarioAfterSync1).indexer (ns ++ "/" ++ name) = .ok (some rule) ∧
      IsZero rule.DeletionTimestamp = true ∧ ContainsFinalizer rule RuleFinalizer = true :=
  have hmem : Call.createRuleGroup "cluster:ns:r1" scenarioGroup ∈
      (syncHandler scenarioController (scenarioWorld scenarioAfterSync1) "ns/r1").2.calls :=
    List.mem_cons_self _ _
  ⟨hmem, (C11_create_needs_finalizer scenarioController (scenarioWorld scenarioAfterSync1)
    "ns/r1").2.1 (Call.createRuleGroup "cluster:ns:r1" scenarioGroup) hmem rfl⟩

/-! ## C12: observed generations -/

theorem find_setStatusCondition_mono (now : Time) (conds : List Condition)
    (newCondition : Condition) (t : String) (c0 : Condition)
    (hmono : ∀ cond ∈ conds, cond.ObservedGeneration ≤ newCondition.ObservedGeneration)
    (hfind : FindStatusCondition conds t = some c0) :
    ∃ c1, FindStatusCondition (SetStatusCondition now conds newCondition) t = some c1 ∧
      c0.ObservedGeneration ≤ c1.ObservedGeneration := by
  by_cases ht : t = newCondition.Type_
  · subst ht
    obtain ⟨c1, hc1, _, _, hobs, _⟩ := find_setStatusCondition_same now conds newCondition
    refine ⟨c1, hc1, ?_⟩
    rw [hobs]
    exact hmono c0 (List.mem_of_find?_eq_some hfind)
  · exact ⟨c0, by rw [find_setStatusCondition_other now conds newCondition t ht]; exact hfind,
      le_refl _⟩

/-- The deletion branch leaves the resource as it was, or without the finalizer,
and the only `Update` it may issue carries the resource it leaves behind. -/
theorem deletionSteps_frame (c : Controller) (ns name : String) (rule : MimirRule)
    (calls : List Call) :
    ((deletionSteps c ns name rule calls).rule = rule ∨
      (deletionSteps c ns name rule calls).rule = RemoveFinalizer rule RuleFinalizer) ∧
    ∀ n r, Call.update n r ∈ (deletionSteps c ns name rule calls).calls.drop calls.length →
      r = (deletionSteps c ns name rule calls).rule := by
  by_cases hfin : ContainsFinalizer rule RuleFinalizer = true
  · rcases allSucceed_or_firstFailure c
      (deleteCalls (namespaceKey c.ClusterName ns name) rule.Spec.Groups) calls
      with hall | ⟨i, e, hf⟩
    · rw [deletionSteps_success c ns name rule calls hfin hall]
      refine ⟨Or.inr rfl, ?_⟩
      intro n r hmem
      simp only [List.append_assoc, List.drop_left] at hmem
      rcases List.mem_append.mp hmem with h | h
      · obtain ⟨g, _, hg⟩ := List.mem_map.mp h
        cases hg
      · simp at h
        exact h.2
    · rw [deletionSteps_failure c ns name rule calls i e hfin hf]
      refine ⟨Or.inl rfl, ?_⟩
      intro n r hmem
      simp only [List.drop_left] at hmem
      obtain ⟨g, _, hg⟩ := List.mem_map.mp (List.mem_of_mem_take hmem)
      cases hg
  · have hd : deletionSteps c ns name rule calls
        = { ret := .returned none, err := none, rule := rule, calls := calls } := by
      simp [deletionSteps, hfin]
    rw [hd]
    refine ⟨Or.inl rfl, ?_⟩
    intro n r hmem
    simp at hmem

/-- C12: for a resource whose generation is at least every observedGeneration
recorded in its conditions, after one `syncHandler` invocation the resource has the
generation it was fetched with; for every condition type (`Ready` and `Failed`
among them) a condition found before is still found and its observedGeneration is
at least what it was; the conditions are those found, or those with one `Ready` or
`Failed` condition written whose observedGeneration is exactly the generation of
the fetched resource; and every `Update` issued carries that resource. -/
theorem C12_observedGeneration_never_regresses (c : Controller) (w : World)
    (key ns name : String) (rule : MimirRule)
    (hkey : SplitMetaNamespaceKey key = .ok (ns, name))
    (hget : w.indexer (ns ++ "/" ++ name) = .ok (some rule))
    (hmono : ∀ cond ∈ rule.Status.Conditions, cond.ObservedGeneration ≤ rule.Generation) :
    ∃ rule1, (syncHandler c w key).2.indexer (ns ++ "/" ++ name) = .ok (some rule1) ∧
      rule1.Generation = rule.Generation ∧
      (∀ t c0, FindStatusCondition rule.Status.Conditions t = some c0 →
        ∃ c1, FindStatusCondition rule1.Status.Conditions t = some c1 ∧
          c0.ObservedGeneration ≤ c1.ObservedGeneration) ∧
      (rule1.Status.Conditions = rule.Status.Conditions ∨
        ∃ cond : Condition, cond.ObservedGeneration = rule.Generation ∧
          (cond.Type_ = ConditionTypeReady ∨ cond.Type_ = ConditionTypeFailed) ∧
          rule1.Status.Conditions = SetStatusCondition c.now rule.Status.Conditions cond) ∧
      (∀ n r, Call.update n r ∈ (syncHandler c w key).2.calls.drop w.calls.length →
        r = rule1) := by
  have hsame : ∀ rule1 : MimirRule, rule1.Status.Conditions = rule.Status.Conditions →
      ∀ t c0, FindStatusCondition rule.Status.Conditions t = some c0 →
        ∃ c1, FindStatusCondition rule1.Status.Conditions t = some c1 ∧
          c0.ObservedGeneration ≤ c1.ObservedGeneration := by
    intro rule1 h t c0 hfind
    exact ⟨c0, by rw [h]; exact hfind, le_refl _⟩
  by_cases hgen : upToDate rule = true
  · rw [syncHandler_upToDate c w key ns name rule hkey hget hgen]
    refine ⟨rule, hget, rfl, hsame rule rfl, Or.inl rfl, ?_⟩
    intro n r hmem
    simp at hmem
  · have hgen1 : upToDate rule = false := by simpa using hgen
    by_cases hdel : IsZero rule.DeletionTimestamp = true
    · rw [syncHandler_applying c w key ns name rule hkey hget hgen1 hdel]
      refine ⟨(applySteps c key rule w.calls).rule, ?_, applySteps_generation c key rule w.calls,
        ?_, applySteps_conditions c key rule w.calls, ?_⟩
      · simp [metricsDefer, storeThrough]
      · rcases applySteps_conditions c key rule w.calls with h | ⟨cond, hobs, _, h⟩
        · exact hsame _ h
        · intro t c0 hfind
          rw [h]
          exact find_setStatusCondition_mono c.now rule.Status.Conditions cond t c0
            (by intro cond0 hc; rw [hobs]; exact hmono cond0 hc) hfind
      · intro n r hmem
        obtain ⟨new, hnew, hcreate, _⟩ := applySteps_calls c key rule w.calls
        simp only [metricsDefer, hnew, List.append_assoc, List.drop_left] at hmem
        rcases List.mem_append.mp hmem with h | h
        · have := hcreate _ h
          cases this
        · simp at h
          exact h.2
    · have hdel1 : IsZero rule.DeletionTimestamp = false := by simpa using hdel
      rw [syncHandler_deleting c w key ns name rule hkey hget hgen1 hdel1]
      obtain ⟨hrule, hupd⟩ := deletionSteps_frame c ns name rule w.calls
      have hconds : (deletionSteps c ns name rule w.calls).rule.Status.Conditions
          = rule.Status.Conditions := by
        rcases hrule with h | h
        · rw [h]
        · rw [h]; rfl
      have hg : (deletionSteps c ns name rule w.calls).rule.Generation = rule.Generation := by
        rcases hrule with h | h
        · rw [h]
        · rw [h]; rfl
      refine ⟨(deletionSteps c ns name rule w.calls).rule, ?_, hg, hsame _ hconds,
        Or.inl hconds, ?_⟩
      · simp [metricsDefer, storeThrough]
      · intro n r hmem
        exact hupd n r hmem

/-- C12 at a resource that carries conditions: generation 5, `Ready` observed at 1
and `Failed` observed at 3, an empty expression.  The sync fails validation: the
`Failed` condition is found again with observedGeneration 5, which is at least 3,
the `Ready` condition is found again with observedGeneration at least 1, and the
one condition written carries the generation 5 of the fetched resource. -/
theorem C12_observedGeneration_never_regresses_witness :
    FindStatusCondition conditionedRule.Status.Conditions ConditionTypeFailed
      = some failedAtThree ∧
    FindStatusCondition conditionedRule.Status.Conditions ConditionTypeReady
      = some readyAtOne ∧
    (FindStatusCondition (setCondition scenarioController conditionedRule
        (failedCondition scenarioController conditionedRule
          (Errorf_w "validation err: " (errorsJoin (scenarioValidate
            { Namespace := "cluster:ns:r1", Groups := [scenarioEmptyGroup] }))))).Status.Conditions
      ConditionTypeFailed).map (fun cond => cond.ObservedGeneration) = some 5 ∧
    ∃ rule1, (syncHandler scenarioController (scenarioWorld conditionedRule)
        "ns/r1").2.indexer "ns/r1" = .ok (some rule1) ∧
      rule1 = setCondition scenarioController conditionedRule
        (failedCondition scenarioController conditionedRule
          (Errorf_w "validation err: " (errorsJoin (scenarioValidate
            { Namespace := "cluster:ns:r1", Groups := [scenarioEmptyGroup] })))) ∧
      rule1.Generation = 5 ∧
      (∃ c1, FindStatusCondition rule1.Status.Conditions ConditionTypeFailed = some c1 ∧
        3 ≤ c1.ObservedGeneration) ∧
      (∃ c1, FindStatusCondition rule1.Status.Conditions ConditionTypeReady = some c1 ∧
        1 ≤ c1.ObservedGeneration) ∧
      (rule1.Status.Conditions = [readyAtOne, failedAtThree] ∨
        ∃ cond : Condition, cond.ObservedGeneration = 5 ∧
          (cond.Type_ = ConditionTypeReady ∨ cond.Type_ = ConditionTypeFailed) ∧
          rule1.Status.Conditions
            = SetStatusCondition 1000 [readyAtOne, failedAtThree] cond) :=
  have hmono : ∀ cond ∈ conditionedRule.Status.Conditions,
      cond.ObservedGeneration ≤ conditionedRule.Generation := by
    intro cond hc
    have hc1 : cond ∈ [readyAtOne, failedAtThree] := hc
    simp only [List.mem_cons, List.mem_singleton, List.not_mem_nil, or_false] at hc1
    rcases hc1 with h | h <;> (subst h; decide)
  have h := C12_observedGeneration_never_regresses scenarioController
    (scenarioWorld conditionedRule) "ns/r1" "ns" "r1" conditionedRule rfl rfl hmono
  ⟨rfl, rfl, rfl, h.elim fun rule1 h1 =>
    ⟨rule1, h1.1,
      (Option.some.inj (Except.ok.inj (h1.1.symm.trans (by rfl)))),
      h1.2.1, h1.2.2.1 ConditionTypeFailed failedAtThree rfl,
      h1.2.2.1 ConditionTypeReady readyAtOne rfl, h1.2.2.2.1⟩⟩

/-! ## C13: the object handed out by the lister -/

/-- C13, what the code does: `rule` is the pointer the lister hands out, and
`AddFinalizer` and `SetStatusCondition` write through it.  After sync 1 of the
scenario the object in the store carries the finalizer it did not have, and after
sync 2 it carries a `Ready` condition it did not have: the stored object is the one
sent through `Update`, not the one that was stored before. -/
theorem C13_stored_object_is_written :
    ((scenarioWorld scenarioRule).indexer "ns/r1" = .ok (some scenarioRule) ∧
      scenarioRule.Finalizers = [] ∧
      (syncHandler scenarioController (scenarioWorld scenarioRule) "ns/r1").2.indexer "ns/r1"
        = .ok (some { scenarioRule with Finalizers := [RuleFinalizer] }) ∧
      (syncHandler scenarioController (scenarioWorld scenarioRule) "ns/r1").2.calls
        = [.update "ns" { scenarioRule with Finalizers := [RuleFinalizer] }]) ∧
    ((scenarioWorld scenarioAfterSync1).indexer "ns/r1" = .ok (some scenarioAfterSync1) ∧
      scenarioAfterSync1.Status.Conditions = [] ∧
      (syncHandler scenarioController (scenarioWorld scenarioAfterSync1) "ns/r1").2.indexer
        "ns/r1" = .ok (some (scenarioAfterSync2 scenarioController)) ∧
      (scenarioAfterSync2 scenarioController).Status.Conditions
        = [readyCondition scenarioController scenarioAfterSync1]) := by
  refine ⟨⟨by rfl, by rfl, by rfl, by rfl⟩, by rfl, by rfl, by rfl, by rfl⟩

/-! ## C14: the resource is not in the cache -/

/-- C14: for a key whose resource is not in the cache, `syncHandler` returns
success and leaves the world as it was: no remote call, no `Update`, no change to
any resource, no counter touched. -/
theorem C14_not_found (c : Controller) (w : World) (key ns name : String)
    (hkey : SplitMetaNamespaceKey key = .ok (ns, name))
    (hget : w.indexer (ns ++ "/" ++ name) = .ok none) :
    syncHandler c w key = (.returned none, w) ∧
    mimirRuleNamespaceLister.Get w.indexer ns name = .error (NewNotFound name) ∧
    (syncHandler c w key).2.calls = w.calls := by
  have hs : syncHandler c w key = (.returned none, w) := by
    simp [syncHandler, hkey, mimirRuleNamespaceLister.Get, hget, NewNotFound]
  refine ⟨hs, ?_, by rw [hs]⟩
  simp [mimirRuleNamespaceLister.Get, hget]

/-- C14 at a concrete input: key `ns/gone` in the scenario's world. -/
theorem C14_not_found_witness :
    syncHandler scenarioController (scenarioWorld scenarioRule) "ns/gone"
      = (.returned none, scenarioWorld scenarioRule) :=
  (C14_not_found scenarioController (scenarioWorld scenarioRule) "ns/gone" "ns" "gone"
    rfl rfl).1

/-! ## `GetMimirRuleNamespace`: what it returns -/

theorem translateRule_cases (pd : String → Except Error Int) (rule : Rule) :
    (FailsToParse pd rule.For ∧ ∃ e, translateRule pd rule = .error e) ∨
    (¬ FailsToParse pd rule.For ∧ translateRule pd rule = .ok (expectedRule pd rule)) := by
  by_cases hfor : rule.For = ""
  · right
    refine ⟨fun h => h.1 hfor, ?_⟩
    simp [translateRule, expectedRule, parsedOrZero, hfor]
  · cases hp : pd rule.For with
    | error e =>
      left
      exact ⟨⟨hfor, e, hp⟩, e, by simp [translateRule, hfor, hp]⟩
    | ok d =>
      right
      refine ⟨fun h => ?_, ?_⟩
      · obtain ⟨_, e, he⟩ := h
        rw [hp] at he
        cases he
      · simp [translateRule, expectedRule, parsedOrZero, hfor, hp]

theorem translateRules_cases (pd : String → Except Error Int) (rules : List Rule) :
    ((∃ rule ∈ rules, FailsToParse pd rule.For) ∧ ∃ e, translateRules pd rules = .error e) ∨
    ((¬ ∃ rule ∈ rules, FailsToParse pd rule.For) ∧
      translateRules pd rules = .ok (rules.map (expectedRule pd))) := by
  induction rules with
  | nil => right; simp [translateRules]
  | cons rule rest ih =>
    rcases translateRule_cases pd rule with ⟨hf, e, he⟩ | ⟨hnf, hok⟩
    · left
      exact ⟨⟨rule, by simp, hf⟩, e, by simp [translateRules, he]⟩
    · rcases ih with ⟨⟨r, hr, hrf⟩, e, he⟩ | ⟨hnone, hrest⟩
      · left
        exact ⟨⟨r, List.mem_cons_of_mem _ hr, hrf⟩, e, by simp [translateRules, hok, he]⟩
      · right
        refine ⟨?_, by simp [translateRules, hok, hrest]⟩
        rintro ⟨r, hr, hrf⟩
        rcases List.mem_cons.mp hr with h | h
        · subst h
          exact hnf hrf
        · exact hnone ⟨r, h, hrf⟩

theorem translateGroup_cases (pd : String → Except Error Int) (group : RuleGroup)
    (hdelay : group.EvaluationDelay = "") :
    (GroupFailsToParse pd group ∧ ∃ e, translateGroup pd group = .error e) ∨
    (¬ GroupFailsToParse pd group ∧ translateGroup pd group = .ok (expectedGroup pd group)) := by
  have hinterval : (FailsToParse pd group.Interval ∧
        ∃ e, (if group.Interval ≠ "" then pd group.Interval else .ok 0) = .error e) ∨
      (¬ FailsToParse pd group.Interval ∧
        (if group.Interval ≠ "" then pd group.Interval else .ok 0)
          = .ok (parsedOrZero pd group.Interval)) := by
    by_cases hi : group.Interval = ""
    · right
      exact ⟨fun h => h.1 hi, by simp [parsedOrZero, hi]⟩
    · cases hp : pd group.Interval with
      | error e =>
        left
        exact ⟨⟨hi, e, hp⟩, e, by simp [hi]⟩
      | ok d =>
        right
        refine ⟨fun h => ?_, by simp [parsedOrZero, hi, hp]⟩
        obtain ⟨_, e, he⟩ := h
        rw [hp] at he
        cases he
  rcases hinterval with ⟨hf, e, he⟩ | ⟨hnf, hok⟩
  · left
    refine ⟨Or.inl hf, e, ?_⟩
    unfold translateGroup
    rw [he]
  · rcases translateRules_cases pd group.Rules with ⟨hrf, e, he⟩ | ⟨hnone, hrules⟩
    · left
      refine ⟨Or.inr hrf, e, ?_⟩
      unfold translateGroup
      rw [hok]
      simp [hdelay, he]
    · right
      refine ⟨fun h => h.elim hnf hnone, ?_⟩
      unfold translateGroup
      rw [hok]
      simp [hdelay, hrules, expectedGroup]

theorem translateGroups_cases (pd : String → Except Error Int) (groups : List RuleGroup)
    (hdelay : ∀ group ∈ groups, group.EvaluationDelay = "") :
    ((∃ group ∈ groups, GroupFailsToParse pd group) ∧
      ∃ e, translateGroups pd groups = .error e) ∨
    ((¬ ∃ group ∈ groups, GroupFailsToParse pd group) ∧
      translateGroups pd groups = .ok (groups.map (expectedGroup pd))) := by
  induction groups with
  | nil => right; simp [translateGroups]
  | cons group rest ih =>
    have hd0 : group.EvaluationDelay = "" := hdelay group (by simp)
    have hdrest : ∀ g ∈ rest, g.EvaluationDelay = "" :=
      fun g hg => hdelay g (List.mem_cons_of_mem _ hg)
    rcases translateGroup_cases pd group hd0 with ⟨hf, e, he⟩ | ⟨hnf, hok⟩
    · left
      exact ⟨⟨group, by simp, hf⟩, e, by simp [translateGroups, he]⟩
    · rcases ih hdrest with ⟨⟨g, hg, hgf⟩, e, he⟩ | ⟨hnone, hrest⟩
      · left
        exact ⟨⟨g, List.mem_cons_of_mem _ hg, hgf⟩, e, by simp [translateGroups, hok, he]⟩
      · right
        refine ⟨?_, by simp [translateGroups, hok, hrest]⟩
        rintro ⟨g, hg, hgf⟩
        rcases List.mem_cons.mp hg with h | h
        · subst h
          exact hnf hgf
        · exact hnone ⟨g, h, hgf⟩

theorem translateGroup_ok_delay (pd : String → Except Error Int) (group : RuleGroup)
    (g : RwRuleGroup) (h : translateGroup pd group = .ok g) : group.EvaluationDelay = "" := by
  by_contra hne
  unfold translateGroup at h
  split at h
  · cases h
  · simp [hne] at h

theorem translateGroups_ok_delay (pd : String → Except Error Int) (groups : List RuleGroup)
    (gs : List RwRuleGroup) (h : translateGroups pd groups = .ok gs) :
    ∀ group ∈ groups, group.EvaluationDelay = "" := by
  induction groups generalizing gs with
  | nil => intro g hg; simp at hg
  | cons group rest ih =>
    unfold translateGroups at h
    split at h
    · cases h
    · cases h
    · rename_i g hg
      split at h
      · cases h
      · cases h
      · rename_i gs1 hgs
        intro g0 hg0
        rcases List.mem_cons.mp hg0 with h0 | h0
        · subst h0
          exact translateGroup_ok_delay pd _ g hg
        · exact ih gs1 hgs g0 h0

/-- A group with a non-empty evaluation delay whose interval is empty or parses
makes the translation panic. -/
theorem translateGroup_delay_panics (pd : String → Except Error Int) (group : RuleGroup)
    (hdelay : group.EvaluationDelay ≠ "")
    (hinterval : group.Interval = "" ∨ ∃ d, pd group.Interval = .ok d) :
    translateGroup pd group = .panic := by
  unfold translateGroup
  rcases hinterval with hi | ⟨d, hd⟩
  · simp [hi, hdelay]
  · by_cases hi : group.Interval = ""
    · simp [hi, hdelay]
    · simp [hi, hd, hdelay]

/-! ## C15: the evaluation delay -/

/-- C15, what the code does: a group with a non-empty evaluation delay, reached with
an interval that is empty or parses, makes `GetMimirRuleNamespace` panic (the write
goes through the nil `EvaluationDelay` pointer of the fresh group), whether the
delay is a valid duration or not; whenever the function returns a namespace, every
source group had an empty evaluation delay and every returned group has none.  So
no returned group ever carries a parsed evaluation delay. -/
theorem C15_evaluation_delay_panics (pd : String → Except Error Int) (ns : String) :
    (∀ (group : RuleGroup) (rest : List RuleGroup), group.EvaluationDelay ≠ "" →
      (group.Interval = "" ∨ ∃ d, pd group.Interval = .ok d) →
      GetMimirRuleNamespace pd { Groups := group :: rest } ns = .panic) ∧
    (∀ spec ruleNs, GetMimirRuleNamespace pd spec ns = .ok ruleNs →
      (∀ group ∈ spec.Groups, group.EvaluationDelay = "") ∧
      ∀ g ∈ ruleNs.Groups, g.EvaluationDelay = none) := by
  refine ⟨?_, ?_⟩
  · intro group rest hdelay hinterval
    simp [GetMimirRuleNamespace, translateGroups,
      translateGroup_delay_panics pd group hdelay hinterval]
  · intro spec ruleNs h
    unfold GetMimirRuleNamespace at h
    split at h
    · cases h
    · cases h
    · rename_i gs hgs
      cases h
      have hdelay := translateGroups_ok_delay pd spec.Groups gs hgs
      refine ⟨hdelay, ?_⟩
      rcases translateGroups_cases pd spec.Groups hdelay with ⟨_, e, he⟩ | ⟨_, hok⟩
      · rw [hgs] at he
        cases he
      · rw [hgs] at hok
        cases hok
        intro g hg
        obtain ⟨group, _, rfl⟩ := List.mem_map.mp hg
        rfl

/-- C15 at a concrete input: one group `g1` with evaluation delay `1m`, which the
duration parser accepts.  The translation panics. -/
theorem C15_evaluation_delay_panics_witness :
    exampleParseDuration "1m" = .ok 60000000000 ∧
    GetMimirRuleNamespace exampleParseDuration (delaySpec "1m") "cluster:ns:r1" = .panic :=
  ⟨rfl, (C15_evaluation_delay_panics exampleParseDuration "cluster:ns:r1").1 _ [] (by decide)
    (Or.inl rfl)⟩

/-! ## C16: the translation -/

/-- C16, what the code does: whenever `GetMimirRuleNamespace` returns a namespace it
is the one the specification words: the given namespace string and, for every
source group in order, the expected group (name, limit, source tenants, parsed
interval, and for every rule in order the expected rule).  For a spec in which every
evaluation delay is empty it returns an error exactly when some non-empty interval
or `for` string fails to parse, and the expected namespace otherwise.  With a
non-empty evaluation delay it panics instead of returning an error, also when the
delay is the string that fails to parse. -/
theorem C16_translation (pd : String → Except Error Int) (spec : RuleSpec) (ns : String) :
    (∀ ruleNs, GetMimirRuleNamespace pd spec ns = .ok ruleNs →
      ruleNs = { Namespace := ns, Groups := spec.Groups.map (expectedGroup pd) }) ∧
    ((∀ group ∈ spec.Groups, group.EvaluationDelay = "") →
      ((∃ e, GetMimirRuleNamespace pd spec ns = .error e) ↔
        ∃ group ∈ spec.Groups, GroupFailsToParse pd group) ∧
      ((¬ ∃ group ∈ spec.Groups, GroupFailsToParse pd group) →
        GetMimirRuleNamespace pd spec ns
          = .ok { Namespace := ns, Groups := spec.Groups.map (expectedGroup pd) })) ∧
    (∀ delay, FailsToParse pd delay →
      GetMimirRuleNamespace pd (delaySpec delay) ns = .panic) := by
  have hnodelay : (∀ group ∈ spec.Groups, group.EvaluationDelay = "") →
      ((∃ e, GetMimirRuleNamespace pd spec ns = .error e) ↔
        ∃ group ∈ spec.Groups, GroupFailsToParse pd group) ∧
      ((¬ ∃ group ∈ spec.Groups, GroupFailsToParse pd group) →
        GetMimirRuleNamespace pd spec ns
          = .ok { Namespace := ns, Groups := spec.Groups.map (expectedGroup pd) }) := by
    intro hdelay
    rcases translateGroups_cases pd spec.Groups hdelay with ⟨hf, e, he⟩ | ⟨hnone, hok⟩
    · refine ⟨⟨fun _ => hf, fun _ => ⟨e, by simp [GetMimirRuleNamespace, he]⟩⟩, ?_⟩
      intro hno
      exact absurd hf hno
    · have hres : GetMimirRuleNamespace pd spec ns
          = .ok { Namespace := ns, Groups := spec.Groups.map (expectedGroup pd) } := by
        simp [GetMimirRuleNamespace, hok]
      refine ⟨⟨?_, fun h => absurd h hnone⟩, fun _ => hres⟩
      rintro ⟨e, he⟩
      rw [hres] at he
      cases he
  refine ⟨?_, hnodelay, ?_⟩
  · intro ruleNs h
    have hdelay : ∀ group ∈ spec.Groups, group.EvaluationDelay = "" := by
      unfold GetMimirRuleNamespace at h
      split at h
      · cases h
      · cases h
      · rename_i gs hgs
        exact translateGroups_ok_delay pd spec.Groups gs hgs
    obtain ⟨hiff, hok⟩ := hnodelay hdelay
    by_cases hf : ∃ group ∈ spec.Groups, GroupFailsToParse pd group
    · obtain ⟨e, he⟩ := hiff.mpr hf
      rw [h] at he
      cases he
    · have := hok hf
      rw [h] at this
      cases this
      rfl
  · intro delay hfail
    simp only [delaySpec, GetMimirRuleNamespace, translateGroups]
    rw [translateGroup_delay_panics pd _ hfail.1 (Or.inl rfl)]

/-- C16 at concrete inputs: the scenario's spec translates to the expected
namespace, and an evaluation delay that fails to parse makes the translation panic
where an error was to be returned. -/
theorem C16_translation_witness :
    GetMimirRuleNamespace exampleParseDuration (scenarioSpec "up == 0") "cluster:ns:r1"
      = .ok { Namespace := "cluster:ns:r1", Groups := [scenarioGroup] } ∧
    FailsToParse exampleParseDuration "soon" ∧
    GetMimirRuleNamespace exampleParseDuration (delaySpec "soon") "cluster:ns:r1" = .panic :=
  have hfail : FailsToParse exampleParseDuration "soon" :=
    ⟨by decide, { message := "not a valid duration string: soon", notFound := false }, rfl⟩
  ⟨rfl, hfail, (C16_translation exampleParseDuration (delaySpec "soon") "cluster:ns:r1").2.2
    "soon" hfail⟩

/-! ## C17: the sync metrics -/

theorem deletionSteps_err (c : Controller) (ns name : String) (rule : MimirRule)
    (calls : List Call) : (deletionSteps c ns name rule calls).err = none := by
  unfold deletionSteps
  split
  · split
    · rfl
    · simp only
      split <;> rfl
  · rfl

/-- C17, what the code does.  An invocation either leaves the world as it was or
increments the sync counter once and observes one duration; it does the latter
exactly when it gets past the generation check, and the former when the key does
not parse, the resource is not found or the generation check short-circuits.  The
sync-error counter follows the function-scope variable `err`, not the returned
value: in the deletion branch it is never incremented, whatever is returned; on the
other paths it is incremented exactly when `err` is non-nil once the deferred
status update has run, while the returned value is the operand of the return
statement. -/
theorem C17_sync_metrics (c : Controller) (w : World) (key : String) :
    ((syncHandler c w key).2 = w ∨
      ((syncHandler c w key).2.syncCounter = w.syncCounter + 1 ∧
        (syncHandler c w key).2.syncHistogram = w.syncHistogram + 1)) ∧
    (∀ ns name rule, SplitMetaNamespaceKey key = .ok (ns, name) →
      w.indexer (ns ++ "/" ++ name) = .ok (some rule) → upToDate rule = false →
      (syncHandler c w key).2.syncCounter = w.syncCounter + 1 ∧
      (syncHandler c w key).2.syncHistogram = w.syncHistogram + 1 ∧
      (IsZero rule.DeletionTimestamp = false →
        (syncHandler c w key).2.syncErrorCounter = w.syncErrorCounter ∧
        (syncHandler c w key).1 = (deletionSteps c ns name rule w.calls).ret) ∧
      (IsZero rule.DeletionTimestamp = true →
        (syncHandler c w key).2.syncErrorCounter =
          (if (statusUpdateDefer c (applySteps c key rule w.calls)).err.isSome
            then w.syncErrorCounter + 1 else w.syncErrorCounter) ∧
        (syncHandler c w key).1 = (applySteps c key rule w.calls).ret)) ∧
    (∀ ns name rule, SplitMetaNamespaceKey key = .ok (ns, name) →
      w.indexer (ns ++ "/" ++ name) = .ok (some rule) → upToDate rule = true →
      (syncHandler c w key).2 = w) ∧
    (∀ e, SplitMetaNamespaceKey key = .error e → (syncHandler c w key).2 = w) ∧
    (∀ ns name, SplitMetaNamespaceKey key = .ok (ns, name) →
      w.indexer (ns ++ "/" ++ name) = .ok none → (syncHandler c w key).2 = w) := by
  have hpast : ∀ ns name rule, SplitMetaNamespaceKey key = .ok (ns, name) →
      w.indexer (ns ++ "/" ++ name) = .ok (some rule) → upToDate rule = false →
      (syncHandler c w key).2.syncCounter = w.syncCounter + 1 ∧
      (syncHandler c w key).2.syncHistogram = w.syncHistogram + 1 ∧
      (IsZero rule.DeletionTimestamp = false →
        (syncHandler c w key).2.syncErrorCounter = w.syncErrorCounter ∧
        (syncHandler c w key).1 = (deletionSteps c ns name rule w.calls).ret) ∧
      (IsZero rule.DeletionTimestamp = true →
        (syncHandler c w key).2.syncErrorCounter =
          (if (statusUpdateDefer c (applySteps c key rule w.calls)).err.isSome
            then w.syncErrorCounter + 1 else w.syncErrorCounter) ∧
        (syncHandler c w key).1 = (applySteps c key rule w.calls).ret) := by
    intro ns name rule hkey hget hgen
    by_cases hdel : IsZero rule.DeletionTimestamp = true
    · have hs : syncHandler c w key =
          ((statusUpdateDefer c (applySteps c key rule w.calls)).ret,
            metricsDefer (statusUpdateDefer c (applySteps c key rule w.calls)).err
              { w with
                calls := (statusUpdateDefer c (applySteps c key rule w.calls)).calls
                indexer := storeThrough w.indexer (ns ++ "/" ++ name)
                  (statusUpdateDefer c (applySteps c key rule w.calls)).rule }) := by
        simp [syncHandler, hkey, mimirRuleNamespaceLister.Get, hget, hgen, hdel]
      rw [hs]
      refine ⟨rfl, rfl, ?_, ?_⟩
      · intro h
        rw [hdel] at h
        cases h
      · intro _
        exact ⟨rfl, statusUpdateDefer_ret c _⟩
    · have hdel1 : IsZero rule.DeletionTimestamp = false := by simpa using hdel
      rw [syncHandler_deleting c w key ns name rule hkey hget hgen hdel1]
      refine ⟨rfl, rfl, ?_, ?_⟩
      · intro _
        simp [metricsDefer, deletionSteps_err]
      · intro h
        rw [hdel1] at h
        cases h
  refine ⟨?_, hpast, ?_, ?_, ?_⟩
  · rcases syncHandler_paths c w key with hw | ⟨ns, name, rule, hkey, hget, hgen⟩
    · exact Or.inl hw
    · obtain ⟨h1, h2, _⟩ := hpast ns name rule hkey hget hgen
      exact Or.inr ⟨h1, h2⟩
  · intro ns name rule hkey hget hgen
    rw [syncHandler_upToDate c w key ns name rule hkey hget hgen]
  · intro e he
    simp [syncHandler, he]
  · intro ns name hkey hget
    simp [syncHandler, hkey, mimirRuleNamespaceLister.Get, hget, NewNotFound]

/-- C17 at concrete inputs.  A failing `DeleteRuleGroup` and a failing
`CreateRuleGroup` make `syncHandler` return an error while the sync-error counter
stays at 0; a failing deferred `Update` after the finalizer was added makes it
return `nil` while the counter goes to 1; a translation error is returned and
counted.  The sync counter goes to 1 every time. -/
theorem C17_sync_metrics_witness :
    ((syncHandler (scenarioControllerFailing Call.isDelete) (scenarioWorld deletingRule)
        "ns/r1").1 = .returned (some { message := "boom", notFound := false }) ∧
      (syncHandler (scenarioControllerFailing Call.isDelete) (scenarioWorld deletingRule)
        "ns/r1").2.syncErrorCounter = 0 ∧
      (syncHandler (scenarioControllerFailing Call.isDelete) (scenarioWorld deletingRule)
        "ns/r1").2.syncCounter = 1) ∧
    ((syncHandler (scenarioControllerFailing Call.isCreate) (scenarioWorld scenarioAfterSync1)
        "ns/r1").1
        = .returned (some { message := "error creating rule group: boom", notFound := false }) ∧
      (syncHandler (scenarioControllerFailing Call.isCreate) (scenarioWorld scenarioAfterSync1)
        "ns/r1").2.syncErrorCounter = 0) ∧
    ((syncHandler (scenarioControllerFailing Call.isUpdate) (scenarioWorld scenarioRule)
        "ns/r1").1 = .returned none ∧
      (syncHandler (scenarioControllerFailing Call.isUpdate) (scenarioWorld scenarioRule)
        "ns/r1").2.syncErrorCounter = 1) ∧
    ((syncHandler scenarioController (scenarioWorld badIntervalRule) "ns/r1").1
        = .returned (some { message :=
            "error getting mimir rule namespace: not a valid duration string: 5x"
                            notFound := false }) ∧
      (syncHandler scenarioController (scenarioWorld badIntervalRule)
        "ns/r1").2.syncErrorCounter = 1) :=
  have h := (C17_sync_metrics (scenarioControllerFailing Call.isDelete)
    (scenarioWorld deletingRule) "ns/r1").2.1 "ns" "r1" deletingRule rfl rfl rfl
  ⟨⟨rfl, (h.2.2.1 rfl).1, h.1⟩, ⟨rfl, rfl⟩, ⟨rfl, rfl⟩, ⟨rfl, rfl⟩⟩

end MimirRules
